import Mathlib

/-!
Verification of the endpoint/task database of `src/database.py` (class
`EndpointDatabase`) together with the checkin route of `src/server.py`.

The Python code works on JSON/TOML-like dynamically typed values.  We embed
those values as the inductive type `Val` below (numeric values are modelled as
integers; the code under scrutiny never manipulates floats).  Python `dict`s
are embedded as insertion-ordered association lists with the three primitive
operations the source uses: lookup (`aget`, = `dict.get`), assignment (`aset`,
= `d[k] = v`, replacing in place or appending) and removal (`apop`, =
`dict.pop(k, None)`).  The persistent store (one TOML file per endpoint id) is
modelled as an association list from endpoint id to record, with
`save_endpoint` a whole-record overwrite, exactly as the code treats it.
-/

inductive Val where
  | str (s : String)
  | int (n : Int)
  | bool (b : Bool)
  | null
  | list (xs : List Val)
  | dict (d : List (String × Val))

abbrev Dict := List (String × Val)

/-- Python truthiness (`bool(v)`) for the embedded values. -/
def Val.truthy : Val → Bool
  | .str s => !s.isEmpty
  | .int n => n != 0
  | .bool b => b
  | .null => false
  | .list xs => !xs.isEmpty
  | .dict d => !d.isEmpty

/-- `v is None`. -/
def Val.isNull : Val → Bool
  | .null => true
  | _ => false

/-- `d.get(k)` without default: the first binding of `k`, if any. -/
def aget {α : Type} (d : List (String × α)) (k : String) : Option α :=
  match d with
  | [] => none
  | (k2, v) :: rest => if k = k2 then some v else aget rest k

/-- `d[k] = v`: replace the binding in place if the key exists, else append. -/
def aset {α : Type} (d : List (String × α)) (k : String) (v : α) :
    List (String × α) :=
  match d with
  | [] => [(k, v)]
  | (k2, w) :: rest => if k = k2 then (k2, v) :: rest else (k2, w) :: aset rest k v

/-- `d.pop(k, None)` (the removal effect). -/
def apop {α : Type} (d : List (String × α)) (k : String) : List (String × α) :=
  d.filter (fun kv => kv.1 != k)

/-- `d.get(k)` with Python's `None` default. -/
def pyGet (d : Dict) (k : String) : Val :=
  (aget d k).getD Val.null

/-- `v.get(k)` on a value statically known to be a dict in the source
(non-dict receivers cannot occur on the paths where this is used). -/
def vGet (v : Val) (k : String) : Val :=
  match v with
  | .dict d => pyGet d k
  | _ => Val.null

mutual

/-- Python `==` on embedded values: numeric cross-type equality between
ints and bools (`True == 1`), elementwise list equality, and
order-insensitive dict equality (same size, every key of the left dict
bound in the right one to an equal value). -/
def pyEq : Val → Val → Bool
  | .str a, .str b => a == b
  | .int a, .int b => a == b
  | .bool a, .bool b => a == b
  | .int a, .bool b => a == (if b then (1 : Int) else 0)
  | .bool a, .int b => (if a then (1 : Int) else 0) == b
  | .null, .null => true
  | .list as, .list bs => pyEqList as bs
  | .dict as, .dict bs => as.length == bs.length && pyEqDict as bs
  | _, _ => false
termination_by v w => (sizeOf v, 0, 0)

def pyEqList : List Val → List Val → Bool
  | [], [] => true
  | a :: as, b :: bs => pyEq a b && pyEqList as bs
  | _, _ => false
termination_by as _ => (sizeOf as, 0, 0)

def pyEqDict : List (String × Val) → List (String × Val) → Bool
  | [], _ => true
  | (k, v) :: rest, b => pyEqFind k v b && pyEqDict rest b
termination_by a _ => (sizeOf a, 0, 0)

def pyEqFind : String → Val → List (String × Val) → Bool
  | _, _, [] => false
  | k, v, (k2, w) :: rest => if k = k2 then pyEq v w else pyEqFind k v rest
termination_by _ v b => (sizeOf v, 1, sizeOf b)

end

/-! ## The task sanitizer (`EndpointDatabase._sanitize_task`) -/

/-- `_TASK_FIELDS` from `database.py`. -/
def TASK_FIELDS : List String :=
  ["task_id", "assigned_at", "instruction", "arg", "exit_code",
   "stdout", "stderr", "stopped_processing_at", "responded", "inventory"]

/-- `_TASK_DEFAULTS` from `database.py`, in its (insertion) order. -/
def TASK_DEFAULTS : List (String × Val) :=
  [("assigned_at", .str ""), ("instruction", .str ""), ("arg", .str ""),
   ("exit_code", .null), ("stdout", .str ""), ("stderr", .str ""),
   ("stopped_processing_at", .str ""), ("responded", .bool false),
   ("inventory", .dict [])]

/-- One step of the copy loop of `_sanitize_task`:
`if field == "task_id": continue` / `if field in task: sanitized[field] = task[field]`. -/
def copyField (task : Dict) (acc : Dict) (f : String) : Dict :=
  if f = "task_id" then acc
  else
    match aget task f with
    | some v => aset acc f v
    | none => acc

/-- One step of the defaults loop of `_sanitize_task`: `sanitized.setdefault(field, default)`
(append at the end when the key is absent, keep the dict unchanged otherwise). -/
def setDefault (acc : Dict) (fd : String × Val) : Dict :=
  if (aget acc fd.1).isSome then acc else acc ++ [fd]

/-- `task.get("task_id") or task.get("id")`: Python `or` takes the left
operand when it is truthy, the right one otherwise. -/
def resolveTid (task : Dict) : Val :=
  if (pyGet task "task_id").truthy then pyGet task "task_id" else pyGet task "id"

/-- The dict built by `_sanitize_task` on the success path: `task_id` first,
every recognized field present in the input copied in schema order, missing
recognized fields defaulted in `_TASK_DEFAULTS` order, and `responded`
overridden when the caller supplied a value for it. -/
def sanBody (task : Dict) (r : Option Bool) : Dict :=
  let s := TASK_FIELDS.foldl (copyField task) [("task_id", resolveTid task)]
  let s := TASK_DEFAULTS.foldl setDefault s
  match r with
  | some b => aset s "responded" (Val.bool b)
  | none => s

/-- `_sanitize_task(task, responded=r)` for a dict input: `None`/falsy
resolved `task_id` raises `ValueError`, embedded as `none`. -/
def sanitize_task (task : Dict) (r : Option Bool) : Option Dict :=
  if (resolveTid task).truthy then some (sanBody task r) else none

/-- `_sanitize_task` on an arbitrary value: a non-dict input raises
`ValueError` (`task must be a dictionary`), embedded as `none`. -/
def sanitizeVal (v : Val) (r : Option Bool) : Option Dict :=
  match v with
  | .dict d => sanitize_task d r
  | _ => none

/-! ## Record normalization (`EndpointDatabase._normalize_endpoint_tasks`) -/

/-- The cleanup applied both by normalization and by `post_task_result`:
`if isinstance(data.get(task_id), dict): data.pop(task_id, None)`.
Dict keys of a loaded record are strings, so looking up a non-string task id
finds nothing and the record is left unchanged. -/
def legacyCleanup (data : Dict) (tid : Val) : Dict :=
  match tid with
  | .str s =>
    match aget data s with
    | some (.dict _) => apop data s
    | _ => data
  | _ => data

/-- `seen_task_ids`: a Python `set` collected by insertion, embedded as the
first-occurrence-deduplicated list of ids (set iteration order is
unspecified, but the pops driven by it target distinct keys and therefore
commute, so any enumeration order yields the same record). -/
def dedupPy (l : List Val) : List Val :=
  l.foldl (fun acc v => if acc.any (fun w => pyEq w v) then acc else acc ++ [v]) []

/-- `_normalize_endpoint_tasks(data)`: a missing or non-list `tasks` field is
replaced by the empty list; otherwise each entry is sanitized (entries whose
sanitization fails are dropped), the list is rewritten, and legacy top-level
dict entries keyed by a seen task id are removed. -/
def normalize_endpoint_tasks (data : Dict) : Dict :=
  match aget data "tasks" with
  | some (.list ts) =>
    let normalized := ts.filterMap (fun t => (sanitizeVal t none).map Val.dict)
    let seen := dedupPy (normalized.map (fun t => vGet t "task_id"))
    let data := aset data "tasks" (.list normalized)
    seen.foldl legacyCleanup data
  | _ => aset data "tasks" (.list [])

/-- The tasks list of a record after normalization (empty when the stored
`tasks` field is absent or not a list). -/
def normListOf (data : Dict) : List Val :=
  match aget data "tasks" with
  | some (.list ts) => ts.filterMap (fun t => (sanitizeVal t none).map Val.dict)
  | _ => []

/-! ## The store and the operations of `EndpointDatabase` / `server.py` -/

/-- The persistent store: one record per endpoint id. -/
abbrev DB := List (String × Dict)

/-- `save_endpoint`: whole-record overwrite. -/
def save_endpoint (db : DB) (eid : String) (data : Dict) : DB :=
  aset db eid data

/-- `get_endpoint`: `None` for an unknown id, otherwise the stored record
with `_normalize_endpoint_tasks` applied to the loaded copy. -/
def get_endpoint (db : DB) (eid : String) : Option Dict :=
  (aget db eid).map normalize_endpoint_tasks

/-- `ensure_non_duplicate`: true iff no *other* endpoint record carries the
same `(hostname, ip_address)` pair (Python `==` comparison). -/
def ensure_non_duplicate (db : DB) (newId : String) (info : Dict) : Bool :=
  let nh := pyGet info "hostname"
  let nip := pyGet info "ip_address"
  (db.map Prod.fst).all fun eid =>
    if eid = newId then true
    else
      match get_endpoint db eid with
      | none => true
      | some d => !(pyEq (pyGet d "hostname") nh && pyEq (pyGet d "ip_address") nip)

/-- `register_endpoint`: reject duplicates, default `tasks` to the empty
list when absent, persist. -/
def register_endpoint (db : DB) (aid : String) (info : Dict) : Bool × DB :=
  if !ensure_non_duplicate db aid info then (false, db)
  else
    let info := if (aget info "tasks").isSome then info else aset info "tasks" (.list [])
    (true, save_endpoint db aid info)

/-- `add_task`: load (normalizing), sanitize forcing `responded=False`,
append, persist.  After normalization the `tasks` field is always a list, so
the fallback arm of the inner match is unreachable. -/
def add_task (db : DB) (eid : String) (task : Val) : Bool × DB :=
  match get_endpoint db eid with
  | none => (false, db)
  | some data =>
    let data := if (aget data "tasks").isSome then data else aset data "tasks" (.list [])
    match sanitizeVal task (some false) with
    | none => (false, db)
    | some st =>
      match aget data "tasks" with
      | some (.list ts) =>
        (true, save_endpoint db eid (aset data "tasks" (.list (ts ++ [.dict st]))))
      | _ => (false, db)

/-- The provided-field set of `post_task_result`:
`set(tdata.keys())` minus `task_id`. -/
def providedFields (tdata : Dict) : List String :=
  (tdata.map Prod.fst).filter (fun k => k != "task_id")

/-- The provided-field set as computed from the raw payload value
(payloads reaching the merge are dicts; the fallback arm is unreachable
because sanitization rejects non-dicts first). -/
def provOf (tdata : Val) : List String :=
  match tdata with
  | .dict td => providedFields td
  | _ => []

/-- The merge loop body of `post_task_result`: every field of the sanitized
result is applied to the stored task iff it is `responded` or was explicitly
present in the raw payload. -/
def mergeResult (t : Dict) (sr : Dict) (prov : List String) : Dict :=
  sr.foldl
    (fun acc kv =>
      if kv.1 = "task_id" then acc
      else if kv.1 = "responded" || prov.contains kv.1 then aset acc kv.1 kv.2
      else acc)
    t

/-- The task scan of `post_task_result`: migrate a legacy `id` key to
`task_id` in place when `task_id` is `None` and `id` matches, merge into the
first task whose `task_id` equals the target and stop (`break`), and fail
(`none`) when the scan falls through.  Non-dict entries cannot occur after
normalization; they are scanned past here. -/
def scanTasks (sr : Dict) (prov : List String) (tid : Val) :
    List Val → Option (List Val)
  | [] => none
  | t :: rest =>
    match t with
    | .dict d =>
      let d :=
        if (pyGet d "task_id").isNull && pyEq (pyGet d "id") tid then
          aset (apop d "id") "task_id" (pyGet d "id")
        else d
      if pyEq (pyGet d "task_id") tid then
        some (Val.dict (mergeResult d sr prov) :: rest)
      else
        match scanTasks sr prov tid rest with
        | some rest2 => some (Val.dict d :: rest2)
        | none => none
    | _ =>
      match scanTasks sr prov tid rest with
      | some rest2 => some (t :: rest2)
      | none => none

/-- `post_task_result`: load (normalizing), sanitize forcing
`responded=True`, merge into the matching task, run the legacy top-level
cleanup for the target id, persist; any failure leaves the store untouched
(in the source the record is a fresh in-memory copy, dropped unless
`save_endpoint` runs). -/
def post_task_result (db : DB) (eid : String) (tdata : Val) : Bool × DB :=
  match get_endpoint db eid with
  | none => (false, db)
  | some data =>
    match sanitizeVal tdata (some true) with
    | none => (false, db)
    | some sr =>
      let tid := pyGet sr "task_id"
      let prov := match tdata with | .dict d => providedFields d | _ => []
      let ts := match aget data "tasks" with | some (.list l) => l | _ => []
      match scanTasks sr prov tid ts with
      | none => (false, db)
      | some ts2 =>
        let data := aset data "tasks" (.list ts2)
        let data := legacyCleanup data tid
        (true, save_endpoint db eid data)

/-- The value whose truthiness the pending filter tests:
`task.get("responded", False)`.  List entries are dicts after
normalization; the non-dict arm is unreachable. -/
def respondedOf (t : Val) : Val :=
  match t with
  | .dict d => (aget d "responded").getD (.bool false)
  | _ => .bool false

/-- `get_tasks_for_endpoint`: `None` for an unknown id; a non-list `tasks`
field yields `[]`; otherwise the tasks whose `responded` value is falsy, in
list order.  (A missing `tasks` field defaults to `[]`, giving `[]` too.) -/
def get_tasks_for_endpoint (db : DB) (eid : String) : Option (List Val) :=
  match get_endpoint db eid with
  | none => none
  | some data =>
    match aget data "tasks" with
    | some (.list ts) => some (ts.filter (fun t => !(respondedOf t).truthy))
    | _ => some []

/-- The checkin route of `server.py`: load (normalizing), stamp
`last_seen`, persist, return the pending-task view of the saved store. -/
def checkin (db : DB) (eid : String) (now : String) : Option (List Val) × DB :=
  match get_endpoint db eid with
  | none => (none, db)
  | some data =>
    let data := aset data "last_seen" (.str now)
    let db2 := save_endpoint db eid data
    (get_tasks_for_endpoint db2 eid, db2)

/-- The record-mutating operations a stored task is exposed to after its
creation (registration never overwrites an existing id in the deployed
system: ids are freshly generated). -/
inductive Op where
  | checkin (eid : String) (now : String)
  | addTask (eid : String) (task : Val)
  | postResult (eid : String) (tdata : Val)

/-- The store after one operation (return values discarded). -/
def applyOp (db : DB) : Op → DB
  | .checkin eid now => (checkin db eid now).2
  | .addTask eid task => (add_task db eid task).2
  | .postResult eid tdata => (post_task_result db eid tdata).2

/-- The store after a sequence of operations. -/
def applyOps (db : DB) (ops : List Op) : DB :=
  ops.foldl applyOp db

/-- The tasks list an observer sees for an endpoint (the record as loaded,
i.e. normalized). -/
def viewTasks (db : DB) (eid : String) : Option (List Val) :=
  match get_endpoint db eid with
  | none => none
  | some d =>
    match aget d "tasks" with
    | some (.list ts) => some ts
    | _ => some []

/-- The `i`-th task of the loaded record. -/
def viewTaskAt (db : DB) (eid : String) (i : Nat) : Option Val :=
  (viewTasks db eid).bind fun ts => ts[i]?

/-! ## Association-list lemmas -/

theorem aget_aset_self {α : Type} (d : List (String × α)) (k : String) (v : α) :
    aget (aset d k v) k = some v := by
  induction d with
  | nil => simp [aget, aset]
  | cons kv rest ih =>
    obtain ⟨k2, w⟩ := kv
    by_cases h : k = k2
    · simp [aset, h, aget]
    · simp [aset, h, aget, ih]

theorem aget_aset_ne {α : Type} (d : List (String × α)) (k k' : String) (v : α)
    (h : k' ≠ k) : aget (aset d k v) k' = aget d k' := by
  induction d with
  | nil => simp [aget, aset, h]
  | cons kv rest ih =>
    obtain ⟨k2, w⟩ := kv
    by_cases h2 : k = k2
    · subst h2
      simp [aset, aget, h]
    · by_cases h3 : k' = k2 <;> simp [aset, h2, aget, h3, ih]

theorem aget_apop_self {α : Type} (d : List (String × α)) (k : String) :
    aget (apop d k) k = none := by
  induction d with
  | nil => simp [aget, apop]
  | cons kv rest ih =>
    obtain ⟨k2, w⟩ := kv
    by_cases h : k2 = k
    · simpa [apop, h] using ih
    · simp only [apop, List.filter_cons] at ih ⊢
      simp [h, aget, Ne.symm h, ih]

theorem aget_apop_ne {α : Type} (d : List (String × α)) (k k' : String)
    (h : k' ≠ k) : aget (apop d k) k' = aget d k' := by
  induction d with
  | nil => simp [aget, apop]
  | cons kv rest ih =>
    obtain ⟨k2, w⟩ := kv
    by_cases h2 : k2 = k
    · subst h2
      simp only [apop, List.filter_cons] at ih ⊢
      simp [aget, h, ih]
    · simp only [apop, List.filter_cons] at ih ⊢
      by_cases h3 : k' = k2 <;> simp [h2, aget, h3, ih]

theorem aget_append {α : Type} (d e : List (String × α)) (k : String) :
    aget (d ++ e) k = match aget d k with | some v => some v | none => aget e k := by
  induction d with
  | nil => simp [aget]
  | cons kv rest ih =>
    obtain ⟨k2, w⟩ := kv
    by_cases h : k = k2 <;> simp [aget, h, ih]

theorem aget_eq_none_iff {α : Type} (d : List (String × α)) (k : String) :
    aget d k = none ↔ k ∉ d.map Prod.fst := by
  induction d with
  | nil => simp [aget]
  | cons kv rest ih =>
    obtain ⟨k2, w⟩ := kv
    by_cases h : k = k2 <;> simp [aget, h, ih]

theorem aget_isSome_iff_mem {α : Type} (d : List (String × α)) (k : String) :
    (aget d k).isSome = true ↔ k ∈ d.map Prod.fst := by
  rw [← Decidable.not_iff_not, ← aget_eq_none_iff (d := d) (k := k)]
  cases aget d k <;> simp

theorem keys_aset {α : Type} (d : List (String × α)) (k : String) (v : α) :
    (aset d k v).map Prod.fst =
      if k ∈ d.map Prod.fst then d.map Prod.fst else d.map Prod.fst ++ [k] := by
  induction d with
  | nil => simp [aset]
  | cons kv rest ih =>
    obtain ⟨k2, w⟩ := kv
    by_cases h : k = k2
    · simp [aset, h]
    · by_cases h2 : k ∈ rest.map Prod.fst <;> simp [aset, h, Ne.symm h, h2, ih]

/-- Keys are pairwise distinct; every dict manipulated by the source has this
shape (Python dicts cannot hold a key twice). -/
def NoDupKeys {α : Type} (d : List (String × α)) : Prop :=
  (d.map Prod.fst).Nodup

theorem noDupKeys_aset {α : Type} (d : List (String × α)) (k : String) (v : α)
    (h : NoDupKeys d) : NoDupKeys (aset d k v) := by
  unfold NoDupKeys at h ⊢
  rw [keys_aset]
  by_cases hk : k ∈ d.map Prod.fst
  · simpa [hk]
  · simp only [hk, if_false, List.nodup_append, List.nodup_cons]
    exact ⟨h, by simp, by simpa using hk⟩

/-- `o` if it is `some`, else the fallback; the shape in which lookups into
the sanitizer's output decompose. -/
def oget (o : Option Val) (fallback : Option Val) : Option Val :=
  match o with
  | some v => some v
  | none => fallback

@[simp] theorem oget_some (v : Val) (f : Option Val) : oget (some v) f = some v := rfl

@[simp] theorem oget_none (f : Option Val) : oget none f = f := rfl

theorem oget_isSome (o : Option Val) (v : Val) : (oget o (some v)).isSome = true := by
  cases o <;> simp [oget]

/-! ## Characterization of the sanitizer -/

theorem aget_copyField_ne (task acc : Dict) (f k : String) (h : k ≠ f) :
    aget (copyField task acc f) k = aget acc k := by
  unfold copyField
  split
  · rfl
  · cases aget task f
    · rfl
    · exact aget_aset_ne _ _ _ _ h

theorem aget_copyField_self (task acc : Dict) (f : String) (h : f ≠ "task_id") :
    aget (copyField task acc f) f = oget (aget task f) (aget acc f) := by
  unfold copyField
  rw [if_neg h]
  cases hv : aget task f
  · rfl
  · simp [aget_aset_self]

theorem aget_setDefault_ne (acc : Dict) (f k : String) (v : Val) (h : k ≠ f) :
    aget (setDefault acc (f, v)) k = aget acc k := by
  unfold setDefault
  split
  · rfl
  · rw [aget_append]
    simp [aget, h]
    cases aget acc k <;> rfl

theorem aget_setDefault_self (acc : Dict) (f : String) (v : Val) :
    aget (setDefault acc (f, v)) f = oget (aget acc f) (some v) := by
  unfold setDefault
  split
  · rename_i h
    obtain ⟨w, hw⟩ := Option.isSome_iff_exists.mp h
    simp [hw, oget]
  · rename_i h
    rw [aget_append]
    cases hv : aget acc f
    · simp [aget]
    · simp [hv] at h

/-- What `_sanitize_task` stores under each key: the resolved id under
`task_id`; under `responded` the forced value if the caller supplied one,
else the input value, defaulting to `False`; under every other recognized
field the input value, defaulting per `_TASK_DEFAULTS`; nothing anywhere
else. -/
def sanSpec (task : Dict) (r : Option Bool) (k : String) : Option Val :=
  if k = "task_id" then some (resolveTid task)
  else if k = "responded" then
    match r with
    | some b => some (Val.bool b)
    | none => oget (aget task "responded") (some (Val.bool false))
  else
    match aget TASK_DEFAULTS k with
    | some dflt => oget (aget task k) (some dflt)
    | none => none

@[simp] theorem oget_none_right (o : Option Val) : oget o none = o := by
  cases o <;> rfl

@[simp] theorem oget_oget (a b c : Option Val) :
    oget (oget a b) c = oget a (oget b c) := by
  cases a <;> rfl

theorem copyField_taskid (task acc : Dict) : copyField task acc "task_id" = acc := by
  simp [copyField]

/-- The copy and defaults loops of `_sanitize_task`, before the `responded`
override. -/
def sanCore (task : Dict) : Dict :=
  TASK_DEFAULTS.foldl setDefault
    (TASK_FIELDS.foldl (copyField task) [("task_id", resolveTid task)])

theorem sanBody_none (task : Dict) : sanBody task none = sanCore task := rfl

theorem sanBody_some (task : Dict) (b : Bool) :
    sanBody task (some b) = aset (sanCore task) "responded" (Val.bool b) := rfl

theorem oget_self_oget (x y : Option Val) : oget x (oget x y) = oget x y := by
  cases x <;> rfl

/-- Running the defaults loop over any pair list: a present key keeps its
value, an absent key receives the first default bound to it. -/
theorem aget_foldl_setDefault (L : List (String × Val)) (acc : Dict) (k : String) :
    aget (L.foldl setDefault acc) k = oget (aget acc k) (aget L k) := by
  induction L generalizing acc with
  | nil => simp [aget]
  | cons fd rest ih =>
    obtain ⟨f, v⟩ := fd
    rw [List.foldl_cons, ih]
    by_cases h : k = f
    · subst h
      rw [aget_setDefault_self]
      simp [aget, oget_oget, oget_self_oget]
    · rw [aget_setDefault_ne _ _ _ _ h]
      simp [aget, h]

/-- Running the copy loop over any field list: a listed key other than
`task_id` receives the input's value when the input has one. -/
theorem aget_foldl_copyField (task : Dict) (L : List String) (acc : Dict) (k : String) :
    aget (L.foldl (copyField task) acc) k =
      if k ∈ L ∧ k ≠ "task_id" then oget (aget task k) (aget acc k)
      else aget acc k := by
  induction L generalizing acc with
  | nil => simp
  | cons f rest ih =>
    rw [List.foldl_cons, ih]
    by_cases h : k = f
    · subst h
      by_cases htid : k = "task_id"
      · simp [htid, copyField_taskid]
      · rw [aget_copyField_self _ _ _ htid]
        simp [htid, oget_self_oget]
    · rw [aget_copyField_ne _ _ _ _ h]
      by_cases hmem : k ∈ rest <;> simp [h, hmem]

theorem aget_sanCore (task : Dict) (k : String) :
    aget (sanCore task) k = sanSpec task none k := by
  unfold sanCore
  rw [aget_foldl_setDefault, aget_foldl_copyField]
  by_cases h1 : k = "task_id"
  · subst h1
    simp [aget, sanSpec, TASK_DEFAULTS]
  by_cases h2 : k = "assigned_at"
  · subst h2
    simp [aget, sanSpec, TASK_FIELDS, TASK_DEFAULTS]
  by_cases h3 : k = "instruction"
  · subst h3
    simp [aget, sanSpec, TASK_FIELDS, TASK_DEFAULTS]
  by_cases h4 : k = "arg"
  · subst h4
    simp [aget, sanSpec, TASK_FIELDS, TASK_DEFAULTS]
  by_cases h5 : k = "exit_code"
  · subst h5
    simp [aget, sanSpec, TASK_FIELDS, TASK_DEFAULTS]
  by_cases h6 : k = "stdout"
  · subst h6
    simp [aget, sanSpec, TASK_FIELDS, TASK_DEFAULTS]
  by_cases h7 : k = "stderr"
  · subst h7
    simp [aget, sanSpec, TASK_FIELDS, TASK_DEFAULTS]
  by_cases h8 : k = "stopped_processing_at"
  · subst h8
    simp [aget, sanSpec, TASK_FIELDS, TASK_DEFAULTS]
  by_cases h9 : k = "responded"
  · subst h9
    simp [aget, sanSpec, TASK_FIELDS, TASK_DEFAULTS]
  by_cases h10 : k = "inventory"
  · subst h10
    simp [aget, sanSpec, TASK_FIELDS, TASK_DEFAULTS]
  · simp [aget, sanSpec, TASK_FIELDS, TASK_DEFAULTS, h1, h2, h3, h4, h5, h6, h7,
      h8, h9, h10]

/-- Master characterization of the sanitizer's output. -/
theorem aget_sanBody (task : Dict) (r : Option Bool) (k : String) :
    aget (sanBody task r) k = sanSpec task r k := by
  cases r with
  | none => rw [sanBody_none, aget_sanCore]
  | some b =>
    rw [sanBody_some]
    by_cases hk : k = "responded"
    · subst hk
      rw [aget_aset_self]
      simp [sanSpec]
    · rw [aget_aset_ne _ _ _ _ hk, aget_sanCore]
      simp [sanSpec, hk]

theorem sanitize_task_eq_some_iff (task : Dict) (r : Option Bool) (s : Dict) :
    sanitize_task task r = some s ↔
      (resolveTid task).truthy = true ∧ s = sanBody task r := by
  unfold sanitize_task
  split
  · rename_i h
    simp [h, eq_comm]
  · rename_i h
    simp [h]

/-! ## Canonical tasks: the shape every entry of a normalized record has -/

/-- A sanitized task: truthy `task_id`, no key outside the fixed schema,
every schema key present. -/
def canonicalTask (d : Dict) : Prop :=
  (pyGet d "task_id").truthy = true ∧
  (∀ k, (aget d k).isSome = true → k ∈ TASK_FIELDS) ∧
  (∀ k, k ∈ TASK_FIELDS → (aget d k).isSome = true)

theorem aget_TASK_DEFAULTS_none (k : String) (h : k ∉ TASK_FIELDS) :
    aget TASK_DEFAULTS k = none := by
  simp only [TASK_FIELDS, List.mem_cons, List.not_mem_nil, or_false] at h
  push_neg at h
  obtain ⟨n1, n2, n3, n4, n5, n6, n7, n8, n9, n10⟩ := h
  simp [TASK_DEFAULTS, aget, n2, n3, n4, n5, n6, n7, n8, n9, n10]

theorem aget_TASK_DEFAULTS_some (k : String) (hmem : k ∈ TASK_FIELDS)
    (h1 : k ≠ "task_id") : ∃ dflt, aget TASK_DEFAULTS k = some dflt := by
  simp only [TASK_FIELDS, List.mem_cons, List.not_mem_nil, or_false] at hmem
  rcases hmem with rfl | rfl | rfl | rfl | rfl | rfl | rfl | rfl | rfl | rfl
  · exact absurd rfl h1
  · exact ⟨.str "", by simp [TASK_DEFAULTS, aget]⟩
  · exact ⟨.str "", by simp [TASK_DEFAULTS, aget]⟩
  · exact ⟨.str "", by simp [TASK_DEFAULTS, aget]⟩
  · exact ⟨.null, by simp [TASK_DEFAULTS, aget]⟩
  · exact ⟨.str "", by simp [TASK_DEFAULTS, aget]⟩
  · exact ⟨.str "", by simp [TASK_DEFAULTS, aget]⟩
  · exact ⟨.str "", by simp [TASK_DEFAULTS, aget]⟩
  · exact ⟨.bool false, by simp [TASK_DEFAULTS, aget]⟩
  · exact ⟨.dict [], by simp [TASK_DEFAULTS, aget]⟩

theorem sanBody_canonical (task : Dict) (r : Option Bool)
    (h : (resolveTid task).truthy = true) : canonicalTask (sanBody task r) := by
  refine ⟨?_, ?_, ?_⟩
  · unfold pyGet
    rw [aget_sanBody]
    simpa [sanSpec] using h
  · intro k hk
    by_contra hmem
    rw [aget_sanBody] at hk
    have h1 : k ≠ "task_id" := by
      rintro rfl
      exact hmem (by simp [TASK_FIELDS])
    have h2 : k ≠ "responded" := by
      rintro rfl
      exact hmem (by simp [TASK_FIELDS])
    simp [sanSpec, h1, h2, aget_TASK_DEFAULTS_none k hmem] at hk
  · intro k hk
    rw [aget_sanBody]
    simp only [TASK_FIELDS, List.mem_cons, List.not_mem_nil, or_false] at hk
    rcases hk with rfl | rfl | rfl | rfl | rfl | rfl | rfl | rfl | rfl | rfl
    all_goals cases r <;> simp [sanSpec, TASK_DEFAULTS, aget, oget_isSome]

theorem pyGet_truthy_aget (d : Dict) (k : String)
    (h : (pyGet d k).truthy = true) : aget d k = some (pyGet d k) := by
  unfold pyGet at *
  cases hv : aget d k
  · rw [hv] at h
    simp [Val.truthy] at h
  · simp [hv]

/-- Sanitizing an already-canonical task succeeds and changes no binding:
the extensional core of sanitizer idempotence, and the reason loading a
record a second time does not alter its tasks. -/
theorem canonical_resanitize (d : Dict) (h : canonicalTask d) :
    sanitize_task d none = some (sanBody d none) ∧
      ∀ k, aget (sanBody d none) k = aget d k := by
  obtain ⟨ht, honly, hcomp⟩ := h
  have hres : resolveTid d = pyGet d "task_id" := by
    unfold resolveTid
    rw [if_pos ht]
  constructor
  · rw [sanitize_task_eq_some_iff]
    exact ⟨by rw [hres]; exact ht, rfl⟩
  · intro k
    rw [aget_sanBody]
    by_cases h1 : k = "task_id"
    · subst h1
      simp only [sanSpec, if_pos rfl, hres]
      exact (pyGet_truthy_aget _ _ ht).symm
    by_cases hmem : k ∈ TASK_FIELDS
    · have hs := hcomp k hmem
      obtain ⟨v, hv⟩ := Option.isSome_iff_exists.mp hs
      by_cases h2 : k = "responded"
      · subst h2
        simp [sanSpec, hv]
      · obtain ⟨dflt, hdflt⟩ := aget_TASK_DEFAULTS_some k hmem h1
        simp [sanSpec, h1, h2, hdflt, hv]
    · have hnone : aget d k = none := by
        cases hv : aget d k
        · rfl
        · exact absurd (honly k (by simp [hv])) hmem
      have h2 : k ≠ "responded" := by
        rintro rfl
        exact hmem (by simp [TASK_FIELDS])
      simp [sanSpec, h1, h2, aget_TASK_DEFAULTS_none k hmem, hnone]

/-! ## Key uniqueness of sanitizer output, and the merge loop -/

theorem foldl_preserve {α β : Type} (P : α → Prop) (f : α → β → α) (l : List β)
    (init : α) (h0 : P init) (hstep : ∀ acc x, P acc → P (f acc x)) :
    P (l.foldl f init) := by
  induction l generalizing init with
  | nil => exact h0
  | cons x rest ih => exact ih _ (hstep _ _ h0)

theorem noDupKeys_setDefault (acc : Dict) (fd : String × Val)
    (h : NoDupKeys acc) : NoDupKeys (setDefault acc fd) := by
  unfold setDefault
  split
  · exact h
  · rename_i hns
    have hmem : fd.1 ∉ acc.map Prod.fst :=
      (aget_eq_none_iff _ _).mp (Option.not_isSome_iff_eq_none.mp hns)
    unfold NoDupKeys at h ⊢
    rw [List.map_append]
    simp only [List.nodup_append, List.nodup_cons]
    exact ⟨h, by simp, by simpa using hmem⟩

theorem noDupKeys_copyField (task acc : Dict) (f : String)
    (h : NoDupKeys acc) : NoDupKeys (copyField task acc f) := by
  unfold copyField
  split
  · exact h
  · cases aget task f
    · exact h
    · exact noDupKeys_aset _ _ _ h

theorem sanBody_noDupKeys (task : Dict) (r : Option Bool) :
    NoDupKeys (sanBody task r) := by
  have hcore : NoDupKeys (sanCore task) := by
    unfold sanCore
    apply foldl_preserve NoDupKeys setDefault
    · apply foldl_preserve NoDupKeys (copyField task)
      · simp [NoDupKeys]
      · exact fun acc f h => noDupKeys_copyField task acc f h
    · exact fun acc fd h => noDupKeys_setDefault acc fd h
  cases r with
  | none => rw [sanBody_none]; exact hcore
  | some b => rw [sanBody_some]; exact noDupKeys_aset _ _ _ hcore

theorem mergeResult_cons (t : Dict) (kv : String × Val) (rest : Dict)
    (prov : List String) :
    mergeResult t (kv :: rest) prov =
      mergeResult
        (if kv.1 = "task_id" then t
         else if kv.1 = "responded" || prov.contains kv.1 then aset t kv.1 kv.2
         else t)
        rest prov := by
  unfold mergeResult
  rw [List.foldl_cons]

/-- What the merge loop of `post_task_result` stores under each key: the
sanitized result's value when the key is `responded` or explicitly provided,
the stored task's old value otherwise; `task_id` is never overwritten. -/
theorem aget_mergeResult (sr : Dict) (hnd : NoDupKeys sr) (t : Dict)
    (prov : List String) (k : String) :
    aget (mergeResult t sr prov) k =
      match aget sr k with
      | some v =>
        if k = "task_id" then aget t k
        else if k = "responded" ∨ k ∈ prov then some v
        else aget t k
      | none => aget t k := by
  induction sr generalizing t with
  | nil => simp [mergeResult, aget]
  | cons kv rest ih =>
    obtain ⟨k0, v0⟩ := kv
    have hnd' : NoDupKeys rest := by
      unfold NoDupKeys at hnd ⊢
      simpa using (List.nodup_cons.mp hnd).2
    have hk0 : k0 ∉ rest.map Prod.fst := by
      simpa using (List.nodup_cons.mp hnd).1
    rw [mergeResult_cons, ih hnd']
    by_cases h : k = k0
    · subst h
      have hrest : aget rest k = none := (aget_eq_none_iff _ _).mpr hk0
      have hcons : aget ((k, v0) :: rest) k = some v0 := by simp [aget]
      rw [hrest, hcons]
      by_cases h1 : k = "task_id"
      · simp [h1]
      · by_cases h2 : k = "responded" ∨ k ∈ prov
        · have hb : (k = "responded" || prov.contains k) = true := by
            rcases h2 with h2 | h2 <;> simp [h2]
          simp [h1, hb, h2, aget_aset_self]
        · have hb : (k = "responded" || prov.contains k) = false := by
            push_neg at h2
            simp [h2.1, h2.2]
          simp [h1, hb, h2]
    · have hcons : aget ((k0, v0) :: rest) k = aget rest k := by
        simp [aget, h]
      rw [hcons]
      have hstep :
          aget
            (if k0 = "task_id" then t
             else if k0 = "responded" || prov.contains k0 then aset t k0 v0
             else t) k = aget t k := by
        split
        · rfl
        · split
          · exact aget_aset_ne _ _ _ _ h
          · rfl
      rw [hstep]

theorem sanitizeVal_canonical (v : Val) (r : Option Bool) (s : Dict)
    (h : sanitizeVal v r = some s) : canonicalTask s := by
  cases v <;> simp [sanitizeVal] at h
  rename_i d
  rw [sanitize_task_eq_some_iff] at h
  obtain ⟨ht, rfl⟩ := h
  exact sanBody_canonical _ _ ht

/-- A merge never touches `task_id`, and keeps the task canonical when the
sanitized result only carries schema keys. -/
theorem mergeResult_canonical (d sr : Dict) (prov : List String)
    (hd : canonicalTask d) (hnd : NoDupKeys sr)
    (honly : ∀ k, (aget sr k).isSome = true → k ∈ TASK_FIELDS) :
    canonicalTask (mergeResult d sr prov) ∧
      aget (mergeResult d sr prov) "task_id" = aget d "task_id" := by
  obtain ⟨ht, hdonly, hdcomp⟩ := hd
  have htid : aget (mergeResult d sr prov) "task_id" = aget d "task_id" := by
    rw [aget_mergeResult sr hnd]
    cases aget sr "task_id" <;> simp
  refine ⟨⟨?_, ?_, ?_⟩, htid⟩
  · unfold pyGet at ht ⊢
    rw [htid]
    exact ht
  · intro k hk
    rw [aget_mergeResult sr hnd] at hk
    revert hk
    cases hsr : aget sr k with
    | none => exact fun hk => hdonly k hk
    | some v =>
      intro hk
      exact honly k (by simp [hsr])
  · intro k hk
    rw [aget_mergeResult sr hnd]
    rcases Option.isSome_iff_exists.mp (hdcomp k hk) with ⟨w, hw⟩
    cases hsr : aget sr k with
    | none => simp [hw]
    | some v =>
      by_cases h1 : k = "task_id"
      · subst h1
        simp [hw]
      · by_cases h2 : k = "responded" ∨ k ∈ prov <;> simp [h1, h2, hw]

/-! ## Normalization lemmas -/

theorem legacyCleanup_tasks (data : Dict) (tid : Val) (l : List Val)
    (h : aget data "tasks" = some (.list l)) :
    aget (legacyCleanup data tid) "tasks" = some (.list l) := by
  unfold legacyCleanup
  split
  · rename_i s
    split
    · rename_i dd heq
      by_cases hs : s = "tasks"
      · subst hs
        rw [h] at heq
        simp at heq
      · rw [aget_apop_ne data s "tasks" (fun hx => hs hx.symm)]
        exact h
    · exact h
  · exact h

theorem foldl_legacyCleanup_tasks (ids : List Val) (data : Dict) (l : List Val)
    (h : aget data "tasks" = some (.list l)) :
    aget (ids.foldl legacyCleanup data) "tasks" = some (.list l) := by
  induction ids generalizing data with
  | nil => exact h
  | cons tid rest ih => exact ih _ (legacyCleanup_tasks _ _ _ h)

/-- After normalization the `tasks` field is always present and holds
exactly the sanitized survivors, in order. -/
theorem aget_normalize_tasks (data : Dict) :
    aget (normalize_endpoint_tasks data) "tasks" = some (.list (normListOf data)) := by
  unfold normalize_endpoint_tasks normListOf
  cases h : aget data "tasks" with
  | none => simp [aget_aset_self]
  | some v =>
    cases v <;> try simp [aget_aset_self]
    rename_i ts
    exact foldl_legacyCleanup_tasks _ _ _ (aget_aset_self _ _ _)

theorem viewTasks_eq (db : DB) (eid : String) :
    viewTasks db eid = (aget db eid).map normListOf := by
  unfold viewTasks get_endpoint
  cases h : aget db eid with
  | none => rfl
  | some r => simp [aget_normalize_tasks]

theorem normListOf_canonical (data : Dict) :
    ∀ t ∈ normListOf data, ∃ d, t = Val.dict d ∧ canonicalTask d := by
  unfold normListOf
  cases aget data "tasks" with
  | none => simp
  | some v =>
    cases v with
    | str s => simp
    | int n => simp
    | bool b => simp
    | null => simp
    | dict d => simp
    | list ts =>
      intro t ht
      rw [List.mem_filterMap] at ht
      obtain ⟨x, _, hx⟩ := ht
      cases hsv : sanitizeVal x none with
      | none => rw [hsv] at hx; simp at hx
      | some s =>
        rw [hsv] at hx
        simp only [Option.map_some'] at hx
        exact ⟨s, (Option.some_injective _ hx).symm, sanitizeVal_canonical _ _ _ hsv⟩

/-! ## The result-merge scan -/

theorem truthy_not_isNull (v : Val) (h : v.truthy = true) : v.isNull = false := by
  cases v <;> simp_all [Val.truthy, Val.isNull]

/-- On a normalized task list a scan that matches nothing fails; the legacy
`id`-migration branch never fires because every normalized task has a truthy
(hence non-`None`) `task_id`. -/
theorem scan_none (sr : Dict) (prov : List String) (tid : Val) (ts : List Val)
    (hc : ∀ t ∈ ts, ∃ d, t = Val.dict d ∧ canonicalTask d)
    (hnm : ∀ t ∈ ts, pyEq (vGet t "task_id") tid = false) :
    scanTasks sr prov tid ts = none := by
  induction ts with
  | nil => rfl
  | cons t rest ih =>
    obtain ⟨d, rfl, hcanon⟩ := hc t (by simp)
    have hguard : (pyGet d "task_id").isNull = false := truthy_not_isNull _ hcanon.1
    have hm : pyEq (pyGet d "task_id") tid = false := by
      simpa [vGet] using hnm (Val.dict d) (by simp)
    have hrest := ih (fun t ht => hc t (by simp [ht])) (fun t ht => hnm t (by simp [ht]))
    simp [scanTasks, hguard, hm, hrest]

/-- On a normalized task list the scan merges into the first matching task
and leaves everything else in place. -/
theorem scan_found (sr : Dict) (prov : List String) (tid : Val) :
    ∀ (ts : List Val) (j : Nat) (d : Dict),
    (∀ t ∈ ts, ∃ e, t = Val.dict e ∧ canonicalTask e) →
    ts[j]? = some (Val.dict d) →
    pyEq (pyGet d "task_id") tid = true →
    (∀ i, i < j → ∀ t, ts[i]? = some t → pyEq (vGet t "task_id") tid = false) →
    scanTasks sr prov tid ts = some (ts.set j (Val.dict (mergeResult d sr prov))) := by
  intro ts
  induction ts with
  | nil =>
    intro j d _ hj
    simp at hj
  | cons t rest ih =>
    intro j d hc hj hm hpre
    obtain ⟨e, rfl, hcanon⟩ := hc t (by simp)
    have hguard : (pyGet e "task_id").isNull = false := truthy_not_isNull _ hcanon.1
    cases j with
    | zero =>
      simp only [List.getElem?_cons_zero, Option.some.injEq, Val.dict.injEq] at hj
      subst hj
      simp [scanTasks, hguard, hm]
    | succ j' =>
      have hhead : pyEq (pyGet e "task_id") tid = false := by
        simpa [vGet] using hpre 0 (Nat.succ_pos _) (Val.dict e) (by simp)
      have hrec := ih j' d (fun t ht => hc t (by simp [ht]))
        (by simpa using hj) hm
        (fun i hi t hti => hpre (i + 1) (Nat.succ_lt_succ hi) t (by simpa using hti))
      simp [scanTasks, hguard, hhead, hrec]

theorem sanBody_responded_true (task : Dict) :
    aget (sanBody task (some true)) "responded" = some (Val.bool true) := by
  rw [aget_sanBody]
  simp [sanSpec]

theorem merged_responded (d sr : Dict) (prov : List String) (hnd : NoDupKeys sr)
    (hr : aget sr "responded" = some (Val.bool true)) :
    aget (mergeResult d sr prov) "responded" = some (Val.bool true) := by
  rw [aget_mergeResult sr hnd]
  simp [hr]

/-- `post_task_result` on an existing record, in terms of the scan over the
normalized task list. -/
theorem post_result_core (db : DB) (eid : String) (tdata : Val) (r sr : Dict)
    (hdb : aget db eid = some r)
    (hsan : sanitizeVal tdata (some true) = some sr) :
    post_task_result db eid tdata =
      match scanTasks sr (provOf tdata)
          (pyGet sr "task_id") (normListOf r) with
      | none => (false, db)
      | some ts2 =>
        (true, aset db eid
          (legacyCleanup (aset (normalize_endpoint_tasks r) "tasks" (.list ts2))
            (pyGet sr "task_id"))) := by
  unfold post_task_result get_endpoint save_endpoint provOf
  simp only [hdb, Option.map_some', hsan, aget_normalize_tasks]

/-- `add_task` on an existing record with a sanitizable task input: append
the sanitized task to the normalized list and persist. -/
theorem add_task_core (db : DB) (eid : String) (task : Val) (r st : Dict)
    (hdb : aget db eid = some r)
    (hsan : sanitizeVal task (some false) = some st) :
    add_task db eid task =
      (true, aset db eid (aset (normalize_endpoint_tasks r) "tasks"
        (Val.list (normListOf r ++ [Val.dict st])))) := by
  unfold add_task get_endpoint save_endpoint
  simp only [hdb, Option.map_some', aget_normalize_tasks, Option.isSome_some,
    if_true, hsan]

/-! ## Claims -/

/-- C8: sanitization is idempotent: when `_sanitize_task` (with no forced
`responded` value) succeeds on `t` with output `s`, sanitizing `s` again
succeeds and returns a dict equal to `s` (Python dict equality: the same
value under every key). -/
theorem c8_sanitize_idempotent (t s : Dict) (h : sanitize_task t none = some s) :
    ∃ s2, sanitize_task s none = some s2 ∧ ∀ k, aget s2 k = aget s k := by
  rw [sanitize_task_eq_some_iff] at h
  obtain ⟨ht, rfl⟩ := h
  obtain ⟨hs, he⟩ := canonical_resanitize _ (sanBody_canonical t none ht)
  exact ⟨_, hs, he⟩

theorem c8_sanitize_idempotent_witness :
    ∃ s2, sanitize_task (sanBody [("id", Val.str "t1"), ("junk", Val.int 5)] none) none
        = some s2 ∧
      ∀ k, aget s2 k = aget (sanBody [("id", Val.str "t1"), ("junk", Val.int 5)] none) k :=
  c8_sanitize_idempotent [("id", Val.str "t1"), ("junk", Val.int 5)] _ rfl

/-- C10: loading a record whose stored `tasks` field is absent or not a
list yields a record whose `tasks` field is the empty list, and the
pending-task view is the empty sequence; the load and the pending query
still succeed. -/
theorem c10_malformed_tasks_field (db : DB) (eid : String) (r : Dict)
    (hdb : aget db eid = some r)
    (hml : ∀ l, aget r "tasks" ≠ some (Val.list l)) :
    get_endpoint db eid = some (aset r "tasks" (Val.list [])) ∧
    aget (aset r "tasks" (Val.list [])) "tasks" = some (Val.list []) ∧
    get_tasks_for_endpoint db eid = some [] := by
  have hnorm : normalize_endpoint_tasks r = aset r "tasks" (Val.list []) := by
    unfold normalize_endpoint_tasks
    cases h : aget r "tasks" with
    | none => rfl
    | some v => cases v <;> first | rfl | exact absurd h (hml _)
  have hget : get_endpoint db eid = some (aset r "tasks" (Val.list [])) := by
    unfold get_endpoint
    rw [hdb, Option.map_some', hnorm]
  refine ⟨hget, aget_aset_self _ _ _, ?_⟩
  unfold get_tasks_for_endpoint
  rw [hget]
  simp [aget_aset_self]

theorem c10_malformed_tasks_field_witness :
    (get_endpoint [("e", [("tasks", Val.str "oops")])] "e" =
        some (aset [("tasks", Val.str "oops")] "tasks" (Val.list [])) ∧
      aget (aset [("tasks", Val.str "oops")] "tasks" (Val.list [])) "tasks" =
        some (Val.list []) ∧
      get_tasks_for_endpoint [("e", [("tasks", Val.str "oops")])] "e" = some []) ∧
    (get_endpoint [("f", [("hostname", Val.str "h")])] "f" =
        some (aset [("hostname", Val.str "h")] "tasks" (Val.list [])) ∧
      aget (aset [("hostname", Val.str "h")] "tasks" (Val.list [])) "tasks" =
        some (Val.list []) ∧
      get_tasks_for_endpoint [("f", [("hostname", Val.str "h")])] "f" = some []) :=
  ⟨c10_malformed_tasks_field _ _ _ rfl (fun l h => by simp [aget] at h),
   c10_malformed_tasks_field _ _ _ rfl (fun l h => by simp [aget] at h)⟩

/-- C7: `post_task_result` on an existing record with a well-formed payload
whose resolved `task_id` matches no task of the (normalized) record fails
and leaves the store exactly as it was. -/
theorem c7_post_result_unknown_task (db : DB) (eid : String) (tdata : Val)
    (r sr : Dict)
    (hdb : aget db eid = some r)
    (hsan : sanitizeVal tdata (some true) = some sr)
    (hnomatch : ∀ t ∈ normListOf r,
      pyEq (vGet t "task_id") (pyGet sr "task_id") = false) :
    post_task_result db eid tdata = (false, db) := by
  rw [post_result_core db eid tdata r sr hdb hsan,
    scan_none _ _ _ _ (normListOf_canonical r) hnomatch]

theorem c7_post_result_unknown_task_witness :
    post_task_result
        [("e", [("tasks", Val.list [Val.dict [("task_id", Val.str "a")]])])] "e"
        (Val.dict [("task_id", Val.str "b"), ("stdout", Val.str "s")]) =
      (false, [("e", [("tasks", Val.list [Val.dict [("task_id", Val.str "a")]])])]) := by
  apply c7_post_result_unknown_task
    [("e", [("tasks", Val.list [Val.dict [("task_id", Val.str "a")]])])] "e"
    (Val.dict [("task_id", Val.str "b"), ("stdout", Val.str "s")])
    [("tasks", Val.list [Val.dict [("task_id", Val.str "a")]])]
    (sanBody [("task_id", Val.str "b"), ("stdout", Val.str "s")] (some true)) rfl rfl
  intro t ht
  have hl : normListOf [("tasks", Val.list [Val.dict [("task_id", Val.str "a")]])] =
      [Val.dict (sanBody [("task_id", Val.str "a")] none)] := rfl
  rw [hl] at ht
  simp only [List.mem_singleton] at ht
  subst ht
  show pyEq (Val.str "a") (Val.str "b") = false
  simp [pyEq]

/-- `post_task_result` when the first matching task sits at index `j` of the
normalized list: merge there, leave every other entry in place, persist. -/
theorem post_result_found (db : DB) (eid : String) (tdata : Val) (r sr : Dict)
    (j : Nat) (d : Dict)
    (hdb : aget db eid = some r)
    (hsan : sanitizeVal tdata (some true) = some sr)
    (hj : (normListOf r)[j]? = some (Val.dict d))
    (hmatch : pyEq (pyGet d "task_id") (pyGet sr "task_id") = true)
    (hfirst : ∀ i, i < j → ∀ t, (normListOf r)[i]? = some t →
      pyEq (vGet t "task_id") (pyGet sr "task_id") = false) :
    post_task_result db eid tdata =
      (true, aset db eid
        (legacyCleanup
          (aset (normalize_endpoint_tasks r) "tasks"
            (Val.list ((normListOf r).set j (Val.dict (mergeResult d sr
              (provOf tdata))))))
          (pyGet sr "task_id"))) := by
  rw [post_result_core db eid tdata r sr hdb hsan,
    scan_found sr _ _ (normListOf r) j d (normListOf_canonical r) hj hmatch hfirst]

/-- C1: posting a result whose raw payload holds only `task_id` and `stdout`
against an existing record whose (normalized) task list first matches that id
at index `j` succeeds, stores `responded = True` and the supplied `stdout` on
that task, and leaves its `exit_code`, `stderr` and `stopped_processing_at`
exactly as stored (the sanitizer's defaults for absent fields are not
applied). -/
theorem c1_partial_result_merge (db : DB) (eid : String) (tidv sv : Val)
    (r : Dict) (j : Nat) (d : Dict)
    (hdb : aget db eid = some r)
    (htid : tidv.truthy = true)
    (hj : (normListOf r)[j]? = some (Val.dict d))
    (hmatch : pyEq (pyGet d "task_id") tidv = true)
    (hfirst : ∀ i, i < j → ∀ t, (normListOf r)[i]? = some t →
      pyEq (vGet t "task_id") tidv = false) :
    ∃ r2 merged,
      post_task_result db eid (Val.dict [("task_id", tidv), ("stdout", sv)]) =
        (true, aset db eid r2) ∧
      aget r2 "tasks" = some (Val.list ((normListOf r).set j (Val.dict merged))) ∧
      aget merged "responded" = some (Val.bool true) ∧
      aget merged "stdout" = some sv ∧
      aget merged "exit_code" = aget d "exit_code" ∧
      aget merged "stderr" = aget d "stderr" ∧
      aget merged "stopped_processing_at" = aget d "stopped_processing_at" := by
  have hres : resolveTid [("task_id", tidv), ("stdout", sv)] = tidv := by
    unfold resolveTid pyGet
    simp [aget, htid]
  have hsan : sanitizeVal (Val.dict [("task_id", tidv), ("stdout", sv)]) (some true) =
      some (sanBody [("task_id", tidv), ("stdout", sv)] (some true)) := by
    simp [sanitizeVal, sanitize_task, hres, htid]
  have hsrtid :
      pyGet (sanBody [("task_id", tidv), ("stdout", sv)] (some true)) "task_id" = tidv := by
    unfold pyGet
    rw [aget_sanBody]
    simp [sanSpec, hres]
  have hnd := sanBody_noDupKeys [("task_id", tidv), ("stdout", sv)] (some true)
  have hprov : provOf (Val.dict [("task_id", tidv), ("stdout", sv)]) = ["stdout"] := by
    simp [provOf, providedFields]
  have hpost := post_result_found db eid
    (Val.dict [("task_id", tidv), ("stdout", sv)]) r
    (sanBody [("task_id", tidv), ("stdout", sv)] (some true)) j d hdb hsan hj
    (by rw [hsrtid]; exact hmatch)
    (by rw [hsrtid]; exact hfirst)
  simp only [hsrtid, hprov] at hpost
  refine ⟨_, mergeResult d (sanBody [("task_id", tidv), ("stdout", sv)] (some true))
    ["stdout"], hpost, ?_, ?_, ?_, ?_, ?_, ?_⟩
  · exact legacyCleanup_tasks _ _ _ (aget_aset_self _ _ _)
  · exact merged_responded d _ ["stdout"] hnd (sanBody_responded_true _)
  · rw [aget_mergeResult _ hnd]
    have hsr : aget (sanBody [("task_id", tidv), ("stdout", sv)] (some true)) "stdout" =
        some sv := by
      rw [aget_sanBody]
      simp [sanSpec, TASK_DEFAULTS, aget]
    rw [hsr]
    simp
  · rw [aget_mergeResult _ hnd]
    have hsr : aget (sanBody [("task_id", tidv), ("stdout", sv)] (some true)) "exit_code" =
        some Val.null := by
      rw [aget_sanBody]
      simp [sanSpec, TASK_DEFAULTS, aget]
    rw [hsr]
    simp
  · rw [aget_mergeResult _ hnd]
    have hsr : aget (sanBody [("task_id", tidv), ("stdout", sv)] (some true)) "stderr" =
        some (Val.str "") := by
      rw [aget_sanBody]
      simp [sanSpec, TASK_DEFAULTS, aget]
    rw [hsr]
    simp
  · rw [aget_mergeResult _ hnd]
    have hsr : aget (sanBody [("task_id", tidv), ("stdout", sv)] (some true))
        "stopped_processing_at" = some (Val.str "") := by
      rw [aget_sanBody]
      simp [sanSpec, TASK_DEFAULTS, aget]
    rw [hsr]
    simp

theorem c1_partial_result_merge_witness :
    ∃ r2 merged,
      post_task_result
          [("e", [("tasks", Val.list [Val.dict [("task_id", Val.str "t1"),
            ("exit_code", Val.int 3), ("stderr", Val.str "err"),
            ("stopped_processing_at", Val.str "T")]])])] "e"
          (Val.dict [("task_id", Val.str "t1"), ("stdout", Val.str "out")]) =
        (true, aset
          [("e", [("tasks", Val.list [Val.dict [("task_id", Val.str "t1"),
            ("exit_code", Val.int 3), ("stderr", Val.str "err"),
            ("stopped_processing_at", Val.str "T")]])])] "e" r2) ∧
      aget r2 "tasks" = some (Val.list
        ((normListOf [("tasks", Val.list [Val.dict [("task_id", Val.str "t1"),
          ("exit_code", Val.int 3), ("stderr", Val.str "err"),
          ("stopped_processing_at", Val.str "T")]])]).set 0 (Val.dict merged))) ∧
      aget merged "responded" = some (Val.bool true) ∧
      aget merged "stdout" = some (Val.str "out") ∧
      aget merged "exit_code" =
        aget (sanBody [("task_id", Val.str "t1"), ("exit_code", Val.int 3),
          ("stderr", Val.str "err"), ("stopped_processing_at", Val.str "T")] none)
          "exit_code" ∧
      aget merged "stderr" =
        aget (sanBody [("task_id", Val.str "t1"), ("exit_code", Val.int 3),
          ("stderr", Val.str "err"), ("stopped_processing_at", Val.str "T")] none)
          "stderr" ∧
      aget merged "stopped_processing_at" =
        aget (sanBody [("task_id", Val.str "t1"), ("exit_code", Val.int 3),
          ("stderr", Val.str "err"), ("stopped_processing_at", Val.str "T")] none)
          "stopped_processing_at" :=
  c1_partial_result_merge _ "e" (Val.str "t1") (Val.str "out") _ 0
    (sanBody [("task_id", Val.str "t1"), ("exit_code", Val.int 3),
      ("stderr", Val.str "err"), ("stopped_processing_at", Val.str "T")] none)
    rfl rfl rfl
    (by show pyEq (Val.str "t1") (Val.str "t1") = true; simp [pyEq])
    (fun i hi => absurd hi (Nat.not_lt_zero i))

/-- C9: when the record's normalized task list matches the reported id first
at index `j`, `post_task_result` merges into that task only and stops; every
other entry — in particular a later duplicate of the same id at index `j2` —
is left exactly as it was. -/
theorem c9_first_match_only (db : DB) (eid : String) (tdata : Val) (r sr : Dict)
    (j j2 : Nat) (d d2 : Dict)
    (hdb : aget db eid = some r)
    (hsan : sanitizeVal tdata (some true) = some sr)
    (hj : (normListOf r)[j]? = some (Val.dict d))
    (hmatch : pyEq (pyGet d "task_id") (pyGet sr "task_id") = true)
    (hfirst : ∀ i, i < j → ∀ t, (normListOf r)[i]? = some t →
      pyEq (vGet t "task_id") (pyGet sr "task_id") = false)
    (hlt : j < j2)
    (hj2 : (normListOf r)[j2]? = some (Val.dict d2))
    (hmatch2 : pyEq (pyGet d2 "task_id") (pyGet sr "task_id") = true) :
    ∃ r2,
      post_task_result db eid tdata = (true, aset db eid r2) ∧
      aget r2 "tasks" = some (Val.list ((normListOf r).set j
        (Val.dict (mergeResult d sr (provOf tdata))))) ∧
      (∀ i, i ≠ j → ((normListOf r).set j
        (Val.dict (mergeResult d sr (provOf tdata))))[i]? = (normListOf r)[i]?) ∧
      ((normListOf r).set j (Val.dict (mergeResult d sr (provOf tdata))))[j2]? =
        some (Val.dict d2) := by
  have hpost := post_result_found db eid tdata r sr j d hdb hsan hj hmatch hfirst
  have hne : ∀ i, i ≠ j → ((normListOf r).set j
      (Val.dict (mergeResult d sr (provOf tdata))))[i]? = (normListOf r)[i]? := by
    intro i hi
    rw [List.getElem?_set_ne (fun hx => hi hx.symm)]
  refine ⟨_, hpost, legacyCleanup_tasks _ _ _ (aget_aset_self _ _ _), hne, ?_⟩
  rw [hne j2 (Nat.ne_of_gt hlt)]
  exact hj2

theorem c9_first_match_only_witness :
    ∃ r2,
      post_task_result
          [("e", [("tasks", Val.list
            [Val.dict [("task_id", Val.str "t1"), ("instruction", Val.str "one")],
             Val.dict [("task_id", Val.str "t1"), ("instruction", Val.str "two")]])])]
          "e" (Val.dict [("task_id", Val.str "t1"), ("stdout", Val.str "o")]) =
        (true, aset
          [("e", [("tasks", Val.list
            [Val.dict [("task_id", Val.str "t1"), ("instruction", Val.str "one")],
             Val.dict [("task_id", Val.str "t1"), ("instruction", Val.str "two")]])])]
          "e" r2) ∧
      aget r2 "tasks" = some (Val.list
        ((normListOf [("tasks", Val.list
            [Val.dict [("task_id", Val.str "t1"), ("instruction", Val.str "one")],
             Val.dict [("task_id", Val.str "t1"), ("instruction", Val.str "two")]])]).set 0
          (Val.dict (mergeResult
            (sanBody [("task_id", Val.str "t1"), ("instruction", Val.str "one")] none)
            (sanBody [("task_id", Val.str "t1"), ("stdout", Val.str "o")] (some true))
            (provOf (Val.dict [("task_id", Val.str "t1"), ("stdout", Val.str "o")])))))) ∧
      (∀ i, i ≠ 0 →
        ((normListOf [("tasks", Val.list
            [Val.dict [("task_id", Val.str "t1"), ("instruction", Val.str "one")],
             Val.dict [("task_id", Val.str "t1"), ("instruction", Val.str "two")]])]).set 0
          (Val.dict (mergeResult
            (sanBody [("task_id", Val.str "t1"), ("instruction", Val.str "one")] none)
            (sanBody [("task_id", Val.str "t1"), ("stdout", Val.str "o")] (some true))
            (provOf (Val.dict [("task_id", Val.str "t1"), ("stdout", Val.str "o")])))))[i]? =
        (normListOf [("tasks", Val.list
            [Val.dict [("task_id", Val.str "t1"), ("instruction", Val.str "one")],
             Val.dict [("task_id", Val.str "t1"), ("instruction", Val.str "two")]])])[i]?) ∧
      ((normListOf [("tasks", Val.list
          [Val.dict [("task_id", Val.str "t1"), ("instruction", Val.str "one")],
           Val.dict [("task_id", Val.str "t1"), ("instruction", Val.str "two")]])]).set 0
        (Val.dict (mergeResult
          (sanBody [("task_id", Val.str "t1"), ("instruction", Val.str "one")] none)
          (sanBody [("task_id", Val.str "t1"), ("stdout", Val.str "o")] (some true))
          (provOf (Val.dict [("task_id", Val.str "t1"), ("stdout", Val.str "o")])))))[1]? =
        some (Val.dict (sanBody
          [("task_id", Val.str "t1"), ("instruction", Val.str "two")] none)) :=
  c9_first_match_only _ "e" _ _
    (sanBody [("task_id", Val.str "t1"), ("stdout", Val.str "o")] (some true)) 0 1
    (sanBody [("task_id", Val.str "t1"), ("instruction", Val.str "one")] none)
    (sanBody [("task_id", Val.str "t1"), ("instruction", Val.str "two")] none)
    rfl rfl rfl
    (by show pyEq (Val.str "t1") (Val.str "t1") = true; simp [pyEq])
    (fun i hi => absurd hi (Nat.not_lt_zero i))
    Nat.zero_lt_one rfl
    (by show pyEq (Val.str "t1") (Val.str "t1") = true; simp [pyEq])

/-- C6: `add_task` with the legacy-shaped input `{id: "t1", command: "ls"}`
on an existing record succeeds and appends a task whose `task_id` is `"t1"`,
whose every recognized schema field carries its default, and which holds no
`command` key (unknown keys are dropped by sanitization). -/
theorem c6_add_task_legacy_shape (db : DB) (eid : String) (r : Dict)
    (hdb : aget db eid = some r) :
    ∃ newt,
      add_task db eid (Val.dict [("id", Val.str "t1"), ("command", Val.str "ls")]) =
        (true, aset db eid (aset (normalize_endpoint_tasks r) "tasks"
          (Val.list (normListOf r ++ [Val.dict newt])))) ∧
      aget newt "task_id" = some (Val.str "t1") ∧
      aget newt "assigned_at" = some (Val.str "") ∧
      aget newt "instruction" = some (Val.str "") ∧
      aget newt "arg" = some (Val.str "") ∧
      aget newt "exit_code" = some Val.null ∧
      aget newt "stdout" = some (Val.str "") ∧
      aget newt "stderr" = some (Val.str "") ∧
      aget newt "stopped_processing_at" = some (Val.str "") ∧
      aget newt "responded" = some (Val.bool false) ∧
      aget newt "inventory" = some (Val.dict []) ∧
      aget newt "command" = none := by
  refine ⟨sanBody [("id", Val.str "t1"), ("command", Val.str "ls")] (some false),
    add_task_core db eid _ r _ hdb rfl, ?_, ?_, ?_, ?_, ?_, ?_, ?_, ?_, ?_, ?_, ?_⟩
  all_goals rfl

theorem c6_add_task_legacy_shape_witness :
    ∃ newt,
      add_task [("e", [("hostname", Val.str "h")])] "e"
          (Val.dict [("id", Val.str "t1"), ("command", Val.str "ls")]) =
        (true, aset [("e", [("hostname", Val.str "h")])] "e"
          (aset (normalize_endpoint_tasks [("hostname", Val.str "h")]) "tasks"
            (Val.list (normListOf [("hostname", Val.str "h")] ++ [Val.dict newt])))) ∧
      aget newt "task_id" = some (Val.str "t1") ∧
      aget newt "assigned_at" = some (Val.str "") ∧
      aget newt "instruction" = some (Val.str "") ∧
      aget newt "arg" = some (Val.str "") ∧
      aget newt "exit_code" = some Val.null ∧
      aget newt "stdout" = some (Val.str "") ∧
      aget newt "stderr" = some (Val.str "") ∧
      aget newt "stopped_processing_at" = some (Val.str "") ∧
      aget newt "responded" = some (Val.bool false) ∧
      aget newt "inventory" = some (Val.dict []) ∧
      aget newt "command" = none :=
  c6_add_task_legacy_shape [("e", [("hostname", Val.str "h")])] "e"
    [("hostname", Val.str "h")] rfl

theorem ensure_non_duplicate_false_iff (db : DB) (cid : String) (info : Dict) :
    ensure_non_duplicate db cid info = false ↔
      ∃ eid r, aget db eid = some r ∧ eid ≠ cid ∧
        pyEq (pyGet (normalize_endpoint_tasks r) "hostname")
          (pyGet info "hostname") = true ∧
        pyEq (pyGet (normalize_endpoint_tasks r) "ip_address")
          (pyGet info "ip_address") = true := by
  unfold ensure_non_duplicate
  rw [List.all_eq_false]
  constructor
  · rintro ⟨eid, hmem, hp⟩
    by_cases hc : eid = cid
    · simp [hc] at hp
    · have hex : ∃ r, aget db eid = some r := by
        cases hv : aget db eid
        · exact absurd hmem ((aget_eq_none_iff _ _).mp hv)
        · exact ⟨_, rfl⟩
      obtain ⟨r, hr⟩ := hex
      have hge : get_endpoint db eid = some (normalize_endpoint_tasks r) := by
        unfold get_endpoint
        rw [hr, Option.map_some']
      simp only [hc, if_false, hge] at hp
      simp only [Bool.not_eq_true', Bool.not_eq_false, Bool.and_eq_true] at hp
      exact ⟨eid, r, hr, hc, hp.1, hp.2⟩
  · rintro ⟨eid, r, hr, hc, h1, h2⟩
    refine ⟨eid, (aget_isSome_iff_mem _ _).mp (by simp [hr]), ?_⟩
    have hge : get_endpoint db eid = some (normalize_endpoint_tasks r) := by
      unfold get_endpoint
      rw [hr, Option.map_some']
    simp [hc, hge, h1, h2]

/-- C3: registration fails exactly when some other existing record carries
the candidate's `(hostname, ip_address)` pair (Python `==` on the loaded
record's fields); in particular, after registering A with
`hostname="h1", ip="1.1.1.1"`, registering B with the identical pair fails
while registering B with `ip="2.2.2.2"` succeeds. -/
theorem c3_register_duplicate_identity :
    (∀ (db : DB) (cid : String) (info : Dict),
      (register_endpoint db cid info).1 = false ↔
        ∃ eid r, aget db eid = some r ∧ eid ≠ cid ∧
          pyEq (pyGet (normalize_endpoint_tasks r) "hostname")
            (pyGet info "hostname") = true ∧
          pyEq (pyGet (normalize_endpoint_tasks r) "ip_address")
            (pyGet info "ip_address") = true) ∧
    (register_endpoint
      (register_endpoint [] "A"
        [("hostname", Val.str "h1"), ("ip_address", Val.str "1.1.1.1")]).2
      "B" [("hostname", Val.str "h1"), ("ip_address", Val.str "1.1.1.1")]).1 = false ∧
    (register_endpoint
      (register_endpoint [] "A"
        [("hostname", Val.str "h1"), ("ip_address", Val.str "1.1.1.1")]).2
      "B" [("hostname", Val.str "h1"), ("ip_address", Val.str "2.2.2.2")]).1 = true := by
  refine ⟨?_, ?_, ?_⟩
  · intro db cid info
    have hiff := ensure_non_duplicate_false_iff db cid info
    by_cases h : ensure_non_duplicate db cid info = false
    · rw [← hiff]
      unfold register_endpoint
      simp [h]
    · have h' : ensure_non_duplicate db cid info = true := by
        cases hv : ensure_non_duplicate db cid info
        · exact absurd hv h
        · rfl
      rw [← hiff]
      unfold register_endpoint
      simp [h']
  · simp [register_endpoint, ensure_non_duplicate, save_endpoint, get_endpoint,
      normalize_endpoint_tasks, dedupPy, aset, aget, pyGet, pyEq, Val.truthy]
  · simp [register_endpoint, ensure_non_duplicate, save_endpoint, get_endpoint,
      normalize_endpoint_tasks, dedupPy, aset, aget, pyGet, pyEq, Val.truthy]

/-- Counterexample to C5 as stated: a record whose only stored task carries
`responded = 0` (an int, not the boolean `False`).  The claim predicts that
the pending view returns exactly the stored tasks whose `responded` field is
`false` — here none — yet the view returns one task, whose `responded` field
is `0`, not `false`.  (The filter tests Python truthiness of the sanitized
task's `responded`, not equality with `False`, and returns sanitized copies.) -/
theorem c5_pending_view_counterexample :
    ∃ t,
      get_tasks_for_endpoint
          [("e", [("tasks", Val.list [Val.dict [("task_id", Val.str "t1"),
            ("responded", Val.int 0), ("junk", Val.str "x")]])])] "e" = some [t] ∧
      vGet t "responded" = Val.int 0 ∧
      Val.int 0 ≠ Val.bool false ∧
      (∀ u ∈ [Val.dict [("task_id", Val.str "t1"), ("responded", Val.int 0),
          ("junk", Val.str "x")]],
        vGet u "responded" ≠ Val.bool false) := by
  refine ⟨Val.dict (sanBody [("task_id", Val.str "t1"), ("responded", Val.int 0),
    ("junk", Val.str "x")] none), rfl, rfl, by simp, ?_⟩
  intro u hu
  simp only [List.mem_singleton] at hu
  subst hu
  show Val.int 0 ≠ Val.bool false
  simp

theorem vGet_responded_true_truthy (t : Val)
    (h : vGet t "responded" = Val.bool true) : (respondedOf t).truthy = true := by
  cases t <;> simp [vGet] at h
  rename_i d
  unfold pyGet at h
  cases hv : aget d "responded" with
  | none => rw [hv] at h; simp at h
  | some w =>
    rw [hv] at h
    simp only [Option.getD_some] at h
    subst h
    simp [respondedOf, hv, Val.truthy]

/-- C5 amended: for an existing record the pending view returns exactly the
record's *normalized* tasks whose `responded` value is not truthy, in list
order; consequently it never contains a task with `responded == True`.  For
an unknown id it returns `None`. -/
theorem c5_amended_pending_view (db : DB) (eid : String) :
    (∀ r, aget db eid = some r →
      get_tasks_for_endpoint db eid =
        some ((normListOf r).filter (fun t => !(respondedOf t).truthy)) ∧
      ∀ pend, get_tasks_for_endpoint db eid = some pend →
        ∀ t ∈ pend, vGet t "responded" ≠ Val.bool true) ∧
    (aget db eid = none → get_tasks_for_endpoint db eid = none) := by
  constructor
  · intro r hdb
    have hge : get_endpoint db eid = some (normalize_endpoint_tasks r) := by
      unfold get_endpoint
      rw [hdb, Option.map_some']
    have hview : get_tasks_for_endpoint db eid =
        some ((normListOf r).filter (fun t => !(respondedOf t).truthy)) := by
      unfold get_tasks_for_endpoint
      rw [hge]
      simp only [aget_normalize_tasks]
    refine ⟨hview, ?_⟩
    intro pend hpend t ht htrue
    rw [hview] at hpend
    have hpend' : pend = (normListOf r).filter (fun t => !(respondedOf t).truthy) :=
      (Option.some_injective _ hpend).symm
    subst hpend'
    have := (List.mem_filter.mp ht).2
    rw [vGet_responded_true_truthy t htrue] at this
    simp at this
  · intro hdb
    unfold get_tasks_for_endpoint get_endpoint
    rw [hdb]
    rfl

theorem c5_amended_pending_view_witness :
    get_tasks_for_endpoint
        [("e", [("tasks", Val.list [Val.dict [("task_id", Val.str "t1"),
          ("responded", Val.int 0), ("junk", Val.str "x")]])])] "e" =
      some ((normListOf [("tasks", Val.list [Val.dict [("task_id", Val.str "t1"),
        ("responded", Val.int 0), ("junk", Val.str "x")]])]).filter
          (fun t => !(respondedOf t).truthy)) ∧
    (∀ t ∈ (normListOf [("tasks", Val.list [Val.dict [("task_id", Val.str "t1"),
        ("responded", Val.int 0), ("junk", Val.str "x")]])]).filter
          (fun t => !(respondedOf t).truthy),
      vGet t "responded" ≠ Val.bool true) ∧
    get_tasks_for_endpoint
        [("e", [("tasks", Val.list [Val.dict [("task_id", Val.str "t1"),
          ("responded", Val.int 0), ("junk", Val.str "x")]])])] "nope" = none := by
  refine ⟨((c5_amended_pending_view
      [("e", [("tasks", Val.list [Val.dict [("task_id", Val.str "t1"),
        ("responded", Val.int 0), ("junk", Val.str "x")]])])] "e").1
      [("tasks", Val.list [Val.dict [("task_id", Val.str "t1"),
        ("responded", Val.int 0), ("junk", Val.str "x")]])] rfl).1, ?_,
    (c5_amended_pending_view
      [("e", [("tasks", Val.list [Val.dict [("task_id", Val.str "t1"),
        ("responded", Val.int 0), ("junk", Val.str "x")]])])] "nope").2 rfl⟩
  exact ((c5_amended_pending_view
      [("e", [("tasks", Val.list [Val.dict [("task_id", Val.str "t1"),
        ("responded", Val.int 0), ("junk", Val.str "x")]])])] "e").1
      [("tasks", Val.list [Val.dict [("task_id", Val.str "t1"),
        ("responded", Val.int 0), ("junk", Val.str "x")]])] rfl).2 _
    (((c5_amended_pending_view
      [("e", [("tasks", Val.list [Val.dict [("task_id", Val.str "t1"),
        ("responded", Val.int 0), ("junk", Val.str "x")]])])] "e").1
      [("tasks", Val.list [Val.dict [("task_id", Val.str "t1"),
        ("responded", Val.int 0), ("junk", Val.str "x")]])] rfl).1)

theorem filterMap_length_all_some {α β : Type} (f : α → Option β) :
    ∀ l : List α, (∀ x ∈ l, (f x).isSome = true) →
      (l.filterMap f).length = l.length := by
  intro l
  induction l with
  | nil => simp
  | cons x rest ih =>
    intro hall
    obtain ⟨y, hy⟩ := Option.isSome_iff_exists.mp (hall x (by simp))
    rw [List.filterMap_cons, hy]
    simp only [List.length_cons]
    rw [ih (fun z hz => hall z (by simp [hz]))]

/-- Counterexample to C2 as stated: adding a second task with the `task_id`
of an existing task appends a second entry instead of updating the first,
and load-time normalization keeps both entries. -/
theorem c2_unique_task_id_counterexample :
    ∃ r2,
      aget (add_task (add_task [("e", [("tasks", Val.list [])])] "e"
          (Val.dict [("task_id", Val.str "t1"), ("instruction", Val.str "a")])).2 "e"
          (Val.dict [("task_id", Val.str "t1"), ("instruction", Val.str "b")])).2 "e"
        = some r2 ∧
      aget r2 "tasks" = some (Val.list
        [Val.dict (sanBody (sanBody [("task_id", Val.str "t1"),
            ("instruction", Val.str "a")] (some false)) none),
         Val.dict (sanBody [("task_id", Val.str "t1"),
            ("instruction", Val.str "b")] (some false))]) ∧
      vGet (Val.dict (sanBody (sanBody [("task_id", Val.str "t1"),
          ("instruction", Val.str "a")] (some false)) none)) "task_id" = Val.str "t1" ∧
      vGet (Val.dict (sanBody [("task_id", Val.str "t1"),
          ("instruction", Val.str "b")] (some false))) "task_id" = Val.str "t1" ∧
      aget (normalize_endpoint_tasks r2) "tasks" = some (Val.list
        [Val.dict (sanBody (sanBody (sanBody [("task_id", Val.str "t1"),
            ("instruction", Val.str "a")] (some false)) none) none),
         Val.dict (sanBody (sanBody [("task_id", Val.str "t1"),
            ("instruction", Val.str "b")] (some false)) none)]) := by
  refine ⟨_, rfl, rfl, rfl, rfl, ?_⟩
  rw [aget_normalize_tasks]
  rfl

/-- C2 amended: `task_id` uniqueness is not enforced.  `add_task`
unconditionally appends its sanitized input to the normalized task list,
even when an entry with the same `task_id` already exists, and
`_normalize_endpoint_tasks` keeps every entry whose sanitization succeeds
(duplicate ids included): the normalized list is exactly as long as the
stored list whenever every entry sanitizes.  (`seen_task_ids` only drives
the legacy top-level cleanup.) -/
theorem c2_amended_no_dedup (db : DB) (eid : String) (r : Dict) (task : Val)
    (st : Dict)
    (hdb : aget db eid = some r)
    (hsan : sanitizeVal task (some false) = some st) :
    add_task db eid task =
      (true, aset db eid (aset (normalize_endpoint_tasks r) "tasks"
        (Val.list (normListOf r ++ [Val.dict st])))) ∧
    (∀ (data : Dict) (ts : List Val), aget data "tasks" = some (Val.list ts) →
      (∀ x ∈ ts, (sanitizeVal x none).isSome = true) →
      (normListOf data).length = ts.length) := by
  refine ⟨add_task_core db eid task r st hdb hsan, ?_⟩
  intro data ts hts hall
  unfold normListOf
  rw [hts]
  exact filterMap_length_all_some _ ts
    (fun x hx => by
      obtain ⟨y, hy⟩ := Option.isSome_iff_exists.mp (hall x hx)
      simp [hy])

theorem c2_amended_no_dedup_witness :
    (add_task
        [("e", [("tasks", Val.list [Val.dict [("task_id", Val.str "t1"),
          ("instruction", Val.str "a")]])])] "e"
        (Val.dict [("task_id", Val.str "t1"), ("instruction", Val.str "b")]) =
      (true, aset
        [("e", [("tasks", Val.list [Val.dict [("task_id", Val.str "t1"),
          ("instruction", Val.str "a")]])])] "e"
        (aset (normalize_endpoint_tasks
            [("tasks", Val.list [Val.dict [("task_id", Val.str "t1"),
              ("instruction", Val.str "a")]])]) "tasks"
          (Val.list (normListOf
              [("tasks", Val.list [Val.dict [("task_id", Val.str "t1"),
                ("instruction", Val.str "a")]])] ++
            [Val.dict (sanBody [("task_id", Val.str "t1"),
              ("instruction", Val.str "b")] (some false))]))))) ∧
    (∀ (data : Dict) (ts : List Val), aget data "tasks" = some (Val.list ts) →
      (∀ x ∈ ts, (sanitizeVal x none).isSome = true) →
      (normListOf data).length = ts.length) :=
  c2_amended_no_dedup
    [("e", [("tasks", Val.list [Val.dict [("task_id", Val.str "t1"),
      ("instruction", Val.str "a")]])])] "e"
    [("tasks", Val.list [Val.dict [("task_id", Val.str "t1"),
      ("instruction", Val.str "a")]])]
    (Val.dict [("task_id", Val.str "t1"), ("instruction", Val.str "b")])
    (sanBody [("task_id", Val.str "t1"), ("instruction", Val.str "b")] (some false))
    rfl rfl

/-! ## Machinery for the `responded` monotonicity claim -/

theorem add_task_no_endpoint (db : DB) (eid : String) (task : Val)
    (h : aget db eid = none) : add_task db eid task = (false, db) := by
  unfold add_task get_endpoint
  rw [h]
  rfl

theorem add_task_bad_task (db : DB) (eid : String) (task : Val) (r : Dict)
    (h : aget db eid = some r) (hs : sanitizeVal task (some false) = none) :
    add_task db eid task = (false, db) := by
  unfold add_task get_endpoint
  rw [h]
  simp only [Option.map_some', hs]

theorem post_no_endpoint (db : DB) (eid : String) (tdata : Val)
    (h : aget db eid = none) : post_task_result db eid tdata = (false, db) := by
  unfold post_task_result get_endpoint
  rw [h]
  rfl

theorem post_bad_payload (db : DB) (eid : String) (tdata : Val) (r : Dict)
    (h : aget db eid = some r) (hs : sanitizeVal tdata (some true) = none) :
    post_task_result db eid tdata = (false, db) := by
  unfold post_task_result get_endpoint
  rw [h]
  simp only [Option.map_some', hs]

theorem checkin_no_endpoint (db : DB) (eid : String) (now : String)
    (h : aget db eid = none) : checkin db eid now = (none, db) := by
  unfold checkin get_endpoint
  rw [h]
  rfl

theorem checkin_some_snd (db : DB) (eid : String) (now : String) (r : Dict)
    (h : aget db eid = some r) :
    (checkin db eid now).2 =
      aset db eid (aset (normalize_endpoint_tasks r) "last_seen" (Val.str now)) := by
  unfold checkin get_endpoint save_endpoint
  rw [h]
  rfl

theorem sanitizeVal_noDupKeys (v : Val) (r : Option Bool) (s : Dict)
    (h : sanitizeVal v r = some s) : NoDupKeys s := by
  cases v <;> simp [sanitizeVal] at h
  rename_i d
  rw [sanitize_task_eq_some_iff] at h
  obtain ⟨_, rfl⟩ := h
  exact sanBody_noDupKeys d r

theorem sanitizeVal_responded_true (v : Val) (s : Dict)
    (h : sanitizeVal v (some true) = some s) :
    aget s "responded" = some (Val.bool true) := by
  cases v <;> simp [sanitizeVal] at h
  rename_i d
  rw [sanitize_task_eq_some_iff] at h
  obtain ⟨-, h2⟩ := h
  rw [h2]
  exact sanBody_responded_true d

theorem vGet_true_dict (t : Val) (k : String) (h : vGet t k = Val.bool true) :
    ∃ d, t = Val.dict d := by
  cases t <;> simp [vGet] at h
  exact ⟨_, rfl⟩

theorem viewTaskAt_eq (db : DB) (eid : String) (i : Nat) :
    viewTaskAt db eid i =
      match aget db eid with
      | none => none
      | some r => (normListOf r)[i]? := by
  unfold viewTaskAt
  rw [viewTasks_eq]
  cases aget db eid <;> rfl

/-- Re-sanitizing an all-canonical task list preserves each position up to
dict equality. -/
theorem filterMap_resan_at (ts : List Val)
    (hc : ∀ x ∈ ts, ∃ d, x = Val.dict d ∧ canonicalTask d) (i : Nat) (d : Dict)
    (hi : ts[i]? = some (Val.dict d)) :
    ∃ e, (ts.filterMap (fun t => (sanitizeVal t none).map Val.dict))[i]? =
      some (Val.dict e) ∧ ∀ k, aget e k = aget d k := by
  induction ts generalizing i with
  | nil => simp at hi
  | cons x rest ih =>
    obtain ⟨dx, rfl, hcx⟩ := hc x (by simp)
    obtain ⟨hsan, hpres⟩ := canonical_resanitize dx hcx
    have hfm : (Val.dict dx :: rest).filterMap
        (fun t => (sanitizeVal t none).map Val.dict) =
        Val.dict (sanBody dx none) ::
          rest.filterMap (fun t => (sanitizeVal t none).map Val.dict) := by
      rw [List.filterMap_cons]
      simp [sanitizeVal, hsan]
    cases i with
    | zero =>
      simp only [List.getElem?_cons_zero, Option.some.injEq, Val.dict.injEq] at hi
      subst hi
      rw [hfm]
      exact ⟨sanBody dx none, by simp, hpres⟩
    | succ i' =>
      rw [hfm]
      simp only [List.getElem?_cons_succ] at hi ⊢
      exact ih (fun y hy => hc y (by simp [hy])) i' hi

/-- A successful scan updates exactly one position of a normalized task
list, in place, with the merge of the task stored there. -/
theorem scan_some_inv (sr : Dict) (prov : List String) (tid : Val) :
    ∀ (ts ts2 : List Val),
    (∀ x ∈ ts, ∃ d, x = Val.dict d ∧ canonicalTask d) →
    scanTasks sr prov tid ts = some ts2 →
    ∃ j d, ts[j]? = some (Val.dict d) ∧
      ts2 = ts.set j (Val.dict (mergeResult d sr prov)) := by
  intro ts
  induction ts with
  | nil =>
    intro ts2 _ hscan
    simp [scanTasks] at hscan
  | cons x rest ih =>
    intro ts2 hc hscan
    obtain ⟨e, rfl, hce⟩ := hc x (by simp)
    have hguard : (pyGet e "task_id").isNull = false := truthy_not_isNull _ hce.1
    rw [show scanTasks sr prov tid (Val.dict e :: rest) =
        (if pyEq (pyGet e "task_id") tid then
          some (Val.dict (mergeResult e sr prov) :: rest)
        else
          match scanTasks sr prov tid rest with
          | some rest2 => some (Val.dict e :: rest2)
          | none => none) from by simp [scanTasks, hguard]] at hscan
    by_cases hm : pyEq (pyGet e "task_id") tid = true
    · rw [if_pos hm] at hscan
      refine ⟨0, e, by simp, ?_⟩
      simpa using (Option.some_injective _ hscan).symm
    · rw [if_neg (by simpa using hm)] at hscan
      cases hrest : scanTasks sr prov tid rest with
      | none => rw [hrest] at hscan; simp at hscan
      | some rest2 =>
        rw [hrest] at hscan
        simp only [Option.some.injEq] at hscan
        obtain ⟨j, d, hj, hset⟩ := ih rest2 (fun y hy => hc y (by simp [hy])) hrest
        refine ⟨j + 1, d, by simpa using hj, ?_⟩
        rw [← hscan, hset]
        rfl

/-- The view of a freshly saved record whose tasks list is canonical:
position `i` survives re-normalization with all bindings intact. -/
theorem view_after_save (db : DB) (eid : String) (r2 : Dict) (ts2 : List Val)
    (hts : aget r2 "tasks" = some (Val.list ts2))
    (hc : ∀ x ∈ ts2, ∃ d, x = Val.dict d ∧ canonicalTask d)
    (i : Nat) (d2 : Dict)
    (hi : ts2[i]? = some (Val.dict d2)) :
    ∃ e, viewTaskAt (aset db eid r2) eid i = some (Val.dict e) ∧
      ∀ k, aget e k = aget d2 k := by
  obtain ⟨e, he, hpres⟩ := filterMap_resan_at ts2 hc i d2 hi
  refine ⟨e, ?_, hpres⟩
  rw [viewTaskAt_eq, aget_aset_self]
  have hn : normListOf r2 = ts2.filterMap (fun t => (sanitizeVal t none).map Val.dict) := by
    unfold normListOf
    rw [hts]
  show (normListOf r2)[i]? = some (Val.dict e)
  rw [hn, he]

theorem getElem?_lt {α : Type} (l : List α) (i : Nat) (a : α)
    (h : l[i]? = some a) : i < l.length := by
  rw [List.getElem?_eq_some] at h
  exact h.1

/-- One operation never resets a stored task's `responded = True`: whatever
the operation (a checkin of any endpoint, adding any task anywhere, posting
any result anywhere), the task at the same position of the same record still
carries `responded = True` in the loaded view. -/
theorem view_step (op : Op) (db : DB) (eid : String) (i : Nat) (d : Dict)
    (hv : viewTaskAt db eid i = some (Val.dict d))
    (ht : aget d "responded" = some (Val.bool true)) :
    ∃ e, viewTaskAt (applyOp db op) eid i = some (Val.dict e) ∧
      aget e "responded" = some (Val.bool true) := by
  rw [viewTaskAt_eq] at hv
  cases hre : aget db eid with
  | none => rw [hre] at hv; exact absurd hv (by simp)
  | some r =>
  rw [hre] at hv
  have hv' : (normListOf r)[i]? = some (Val.dict d) := hv
  have hunchanged : ∀ db2 : DB, aget db2 eid = aget db eid →
      ∃ e, viewTaskAt db2 eid i = some (Val.dict e) ∧
        aget e "responded" = some (Val.bool true) := by
    intro db2 h2
    refine ⟨d, ?_, ht⟩
    rw [viewTaskAt_eq, h2, hre]
    exact hv'
  cases op with
  | checkin eid' now =>
    show ∃ e, viewTaskAt (checkin db eid' now).2 eid i = _ ∧ _
    cases hre' : aget db eid' with
    | none =>
      rw [checkin_no_endpoint db eid' now hre']
      exact hunchanged db rfl
    | some r' =>
      rw [checkin_some_snd db eid' now r' hre']
      by_cases he : eid' = eid
      · subst he
        rw [hre] at hre'
        obtain rfl : r = r' := Option.some_injective _ hre'
        have hts : aget (aset (normalize_endpoint_tasks r) "last_seen" (Val.str now))
            "tasks" = some (Val.list (normListOf r)) := by
          rw [aget_aset_ne _ _ _ _ (by simp), aget_normalize_tasks]
        obtain ⟨e, he2, hpres⟩ := view_after_save db eid' _ _ hts
          (normListOf_canonical r) i d hv'
        exact ⟨e, he2, by rw [hpres, ht]⟩
      · refine hunchanged _ (aget_aset_ne _ _ _ _ ?_)
        exact fun hx => he hx.symm
  | addTask eid' task =>
    show ∃ e, viewTaskAt (add_task db eid' task).2 eid i = _ ∧ _
    cases hre' : aget db eid' with
    | none =>
      rw [add_task_no_endpoint db eid' task hre']
      exact hunchanged db rfl
    | some r' =>
      cases hsv : sanitizeVal task (some false) with
      | none =>
        rw [add_task_bad_task db eid' task r' hre' hsv]
        exact hunchanged db rfl
      | some st =>
        rw [add_task_core db eid' task r' st hre' hsv]
        by_cases he : eid' = eid
        · subst he
          rw [hre] at hre'
          obtain rfl : r = r' := Option.some_injective _ hre'
          have hts : aget (aset (normalize_endpoint_tasks r) "tasks"
              (Val.list (normListOf r ++ [Val.dict st]))) "tasks" =
              some (Val.list (normListOf r ++ [Val.dict st])) := aget_aset_self _ _ _
          have hc : ∀ x ∈ normListOf r ++ [Val.dict st],
              ∃ dx, x = Val.dict dx ∧ canonicalTask dx := by
            intro x hx
            rcases List.mem_append.mp hx with hx | hx
            · exact normListOf_canonical r x hx
            · simp only [List.mem_singleton] at hx
              subst hx
              exact ⟨st, rfl, sanitizeVal_canonical _ _ _ hsv⟩
          have hi : (normListOf r ++ [Val.dict st])[i]? = some (Val.dict d) := by
            rw [List.getElem?_append_left (getElem?_lt _ _ _ hv')]
            exact hv'
          obtain ⟨e, he2, hpres⟩ := view_after_save db eid' _ _ hts hc i d hi
          exact ⟨e, he2, by rw [hpres, ht]⟩
        · refine hunchanged _ (aget_aset_ne _ _ _ _ ?_)
          exact fun hx => he hx.symm
  | postResult eid' tdata =>
    show ∃ e, viewTaskAt (post_task_result db eid' tdata).2 eid i = _ ∧ _
    cases hre' : aget db eid' with
    | none =>
      rw [post_no_endpoint db eid' tdata hre']
      exact hunchanged db rfl
    | some r' =>
      cases hsv : sanitizeVal tdata (some true) with
      | none =>
        rw [post_bad_payload db eid' tdata r' hre' hsv]
        exact hunchanged db rfl
      | some sr =>
        have hpc := post_result_core db eid' tdata r' sr hre' hsv
        cases hscan : scanTasks sr (provOf tdata) (pyGet sr "task_id")
            (normListOf r') with
        | none =>
          rw [hscan] at hpc
          rw [hpc]
          exact hunchanged db rfl
        | some ts2 =>
          rw [hscan] at hpc
          rw [hpc]
          obtain ⟨j, dj, hj, rfl⟩ := scan_some_inv sr (provOf tdata)
            (pyGet sr "task_id") (normListOf r') ts2
            (normListOf_canonical r') hscan
          by_cases he : eid' = eid
          · subst he
            rw [hre] at hre'
            obtain rfl : r = r' := Option.some_injective _ hre'
            have hcan_sr := sanitizeVal_canonical _ _ _ hsv
            have hnd := sanitizeVal_noDupKeys _ _ _ hsv
            obtain ⟨dj', hdj', hcanj⟩ := normListOf_canonical r _
              (List.getElem?_mem hj)
            obtain rfl : dj = dj' := Val.dict.inj hdj'
            have hmc := mergeResult_canonical dj sr (provOf tdata) hcanj hnd
              hcan_sr.2.1
            have hts : aget (legacyCleanup (aset (normalize_endpoint_tasks r)
                "tasks" (Val.list ((normListOf r).set j (Val.dict
                  (mergeResult dj sr (provOf tdata)))))) (pyGet sr "task_id"))
                "tasks" = some (Val.list ((normListOf r).set j (Val.dict
                  (mergeResult dj sr (provOf tdata))))) :=
              legacyCleanup_tasks _ _ _ (aget_aset_self _ _ _)
            have hc : ∀ x ∈ (normListOf r).set j (Val.dict
                (mergeResult dj sr (provOf tdata))),
                ∃ dx, x = Val.dict dx ∧ canonicalTask dx := by
              intro x hx
              rcases List.mem_or_eq_of_mem_set hx with hx | hx
              · exact normListOf_canonical r x hx
              · subst hx
                exact ⟨_, rfl, hmc.1⟩
            by_cases hij : i = j
            · subst hij
              have hi : ((normListOf r).set i (Val.dict (mergeResult dj sr
                  (provOf tdata))))[i]? = some (Val.dict (mergeResult dj sr
                  (provOf tdata))) :=
                List.getElem?_set_eq_of_lt _ (getElem?_lt _ _ _ hv')
              obtain ⟨e, he2, hpres⟩ := view_after_save db eid' _ _ hts hc i _ hi
              refine ⟨e, he2, ?_⟩
              rw [hpres]
              exact merged_responded dj sr (provOf tdata) hnd
                (sanitizeVal_responded_true _ _ hsv)
            · have hi : ((normListOf r).set j (Val.dict (mergeResult dj sr
                  (provOf tdata))))[i]? = some (Val.dict d) := by
                rw [List.getElem?_set_ne (fun hx => hij hx.symm)]
                exact hv'
              obtain ⟨e, he2, hpres⟩ := view_after_save db eid' _ _ hts hc i _ hi
              exact ⟨e, he2, by rw [hpres, ht]⟩
          · refine hunchanged _ (aget_aset_ne _ _ _ _ ?_)
            exact fun hx => he hx.symm

theorem vGet_dict_responded (d : Dict)
    (h : vGet (Val.dict d) "responded" = Val.bool true) :
    aget d "responded" = some (Val.bool true) := by
  simp only [vGet, pyGet] at h
  cases hv : aget d "responded" with
  | none => rw [hv] at h; simp at h
  | some w => rw [hv] at h; simp only [Option.getD_some] at h; rw [h]

theorem pending_not_truthy (db : DB) (eid : String) (pend : List Val) (t : Val)
    (h : get_tasks_for_endpoint db eid = some pend) (hm : t ∈ pend) :
    (respondedOf t).truthy = false := by
  unfold get_tasks_for_endpoint at h
  cases hge : get_endpoint db eid with
  | none => rw [hge] at h; exact absurd h (by simp)
  | some data =>
    rw [hge] at h
    revert h
    show (match aget data "tasks" with
      | some (Val.list ts) => some (List.filter (fun t => !(respondedOf t).truthy) ts)
      | _ => some ([] : List Val)) = some pend → _
    cases hts : aget data "tasks" with
    | none =>
      intro h
      simp only [Option.some.injEq] at h
      subst h
      simp at hm
    | some v =>
      cases v <;> intro h <;> simp only [Option.some.injEq] at h <;> subst h <;>
        try simp at hm
      exact hm.2

/-- C4: once a stored task's `responded` is `True`, no sequence of
operations (checkins, task additions, result posts — each of which reloads
and thus re-normalizes the record) ever makes it `False` again, and the task
never appears in any later pending-task view. -/
theorem c4_responded_never_reverts (ops : List Op) (db : DB) (eid : String)
    (i : Nat) (t : Val)
    (hv : viewTaskAt db eid i = some t)
    (ht : vGet t "responded" = Val.bool true) :
    ∃ t2, viewTaskAt (applyOps db ops) eid i = some t2 ∧
      vGet t2 "responded" = Val.bool true ∧
      ∀ pend, get_tasks_for_endpoint (applyOps db ops) eid = some pend →
        t2 ∉ pend := by
  obtain ⟨d, rfl⟩ := vGet_true_dict t "responded" ht
  have ht' : aget d "responded" = some (Val.bool true) := vGet_dict_responded d ht
  have main : ∀ (ops2 : List Op) (db2 : DB) (d2 : Dict),
      viewTaskAt db2 eid i = some (Val.dict d2) →
      aget d2 "responded" = some (Val.bool true) →
      ∃ e, viewTaskAt (applyOps db2 ops2) eid i = some (Val.dict e) ∧
        aget e "responded" = some (Val.bool true) := by
    intro ops2
    induction ops2 with
    | nil => exact fun db2 d2 h1 h2 => ⟨d2, h1, h2⟩
    | cons op rest ih =>
      intro db2 d2 h1 h2
      obtain ⟨e, he1, he2⟩ := view_step op db2 eid i d2 h1 h2
      exact ih (applyOp db2 op) e he1 he2
  obtain ⟨e, he1, he2⟩ := main ops db d hv ht'
  refine ⟨Val.dict e, he1, by simp [vGet, pyGet, he2], ?_⟩
  intro pend hpend hmem
  have hf := pending_not_truthy _ _ _ _ hpend hmem
  rw [show respondedOf (Val.dict e) = Val.bool true from by simp [respondedOf, he2]] at hf
  simp [Val.truthy] at hf

theorem c4_responded_never_reverts_witness :
    ∃ t2,
      viewTaskAt (applyOps
        [("e", [("tasks", Val.list [Val.dict [("task_id", Val.str "t1"),
          ("responded", Val.bool true)]])])]
        [Op.checkin "e" "2024-01-01T00:00:00Z",
         Op.addTask "e" (Val.dict [("id", Val.str "t2")]),
         Op.postResult "e" (Val.dict [("task_id", Val.str "t2"),
           ("exit_code", Val.int 0)])]) "e" 0 = some t2 ∧
      vGet t2 "responded" = Val.bool true ∧
      ∀ pend, get_tasks_for_endpoint (applyOps
        [("e", [("tasks", Val.list [Val.dict [("task_id", Val.str "t1"),
          ("responded", Val.bool true)]])])]
        [Op.checkin "e" "2024-01-01T00:00:00Z",
         Op.addTask "e" (Val.dict [("id", Val.str "t2")]),
         Op.postResult "e" (Val.dict [("task_id", Val.str "t2"),
           ("exit_code", Val.int 0)])]) "e" = some pend →
        t2 ∉ pend :=
  c4_responded_never_reverts
    [Op.checkin "e" "2024-01-01T00:00:00Z",
     Op.addTask "e" (Val.dict [("id", Val.str "t2")]),
     Op.postResult "e" (Val.dict [("task_id", Val.str "t2"),
       ("exit_code", Val.int 0)])]
    [("e", [("tasks", Val.list [Val.dict [("task_id", Val.str "t1"),
      ("responded", Val.bool true)]])])] "e" 0
    (Val.dict (sanBody [("task_id", Val.str "t1"), ("responded", Val.bool true)] none))
    rfl rfl
